import Mathlib

/-!
Verification of the Candidate Retrieval & Ranking Engine of the ATS-System
repository ("Final Version" tree) against its natural-language specification.

The Python sources are shallowly embedded: pure functions become Lean
functions over `String`, `List` and `ℚ` (Python floats are idealised as
rationals), the process-wide BM25 singleton becomes explicit state passing,
and the two external pip libraries are handled as follows:

- rank-bm25 (`BM25Okapi.get_scores`) is not code of this repository; it is
  modelled as an explicit function parameter `getScores`.
- rapidfuzz (`fuzz.ratio`, `process.extractOne`) is modelled concretely from
  its documented semantics: `fuzz.ratio a b` is the normalized indel
  similarity scaled to 0..100, which equals `200 * lcs(a,b) / (|a| + |b|)`,
  and `extractOne` returns the first choice attaining the maximal score.

Unicode-dependent character classes of Python (`\w`, `\s`, `str.lower`,
`str.title`) are modelled by their ASCII behaviour, which is exact on all
inputs appearing in the repository's data and in the claims.
-/

/-! ## Python string primitives -/

/-- Python `str.lower` (ASCII case mapping, per character). -/
def pyLower (s : String) : String := String.mk (s.data.map Char.toLower)

/-- Whitespace test used for Python `str.strip` / `str.split` / regex `\s`. -/
def isSpaceC (c : Char) : Bool := c.isWhitespace

/-- Word character for the regex word-boundary assertion `\b` (`[a-zA-Z0-9_]`). -/
def isWordC (c : Char) : Bool := c.isAlphanum || c == '_'

/-- Boolean exclusive or, spelled out (regex `\b` holds between two positions
of differing word-character status). -/
def xorB (a b : Bool) : Bool := a != b

/-- Word-character status of the head of a character list; the end of the
string counts as a non-word position. -/
def headWord : List Char → Bool
  | [] => false
  | c :: _ => isWordC c

/-- Python `str.strip` on a character list: drop whitespace on both ends. -/
def stripChars (l : List Char) : List Char :=
  ((l.dropWhile isSpaceC).reverse.dropWhile isSpaceC).reverse

/-- Python `str.strip`. -/
def pyStrip (s : String) : String := String.mk (stripChars s.data)

/-- Python `str.split()` with no argument: split on whitespace runs,
dropping empty pieces. `acc` holds the current word reversed. -/
def splitWsAux : List Char → List Char → List (List Char)
  | acc, [] => if acc.isEmpty then [] else [acc.reverse]
  | acc, c :: cs =>
      if isSpaceC c then
        if acc.isEmpty then splitWsAux [] cs else acc.reverse :: splitWsAux [] cs
      else splitWsAux (c :: acc) cs

/-- Python `str.split()` with no argument. -/
def pySplit (s : String) : List String := (splitWsAux [] s.data).map String.mk

/-- Python `str.title` helper: an alphabetic character is uppercased when the
previous character is not alphabetic, lowercased otherwise. -/
def pyTitleAux : Bool → List Char → List Char
  | _, [] => []
  | prevAlpha, c :: cs =>
      if c.isAlpha then
        (if prevAlpha then c.toLower else c.toUpper) :: pyTitleAux true cs
      else c :: pyTitleAux false cs

/-- Python `str.title`. -/
def pyTitle (s : String) : String := String.mk (pyTitleAux false s.data)

/-- Tests whether the first list is an initial segment of the second. -/
def leadsList : List Char → List Char → Bool
  | [], _ => true
  | _ :: _, [] => false
  | x :: xs, y :: ys => x == y && leadsList xs ys

/-- Python `str.endswith`. -/
def endsWithStr (s suf : String) : Bool :=
  leadsList suf.data.reverse s.data.reverse

/-- Substring occurrence on character lists (Python `needle in hay`). -/
def containsSub (needle : List Char) : List Char → Bool
  | [] => leadsList needle []
  | c :: cs => leadsList needle (c :: cs) || containsSub needle cs

/-- Python substring test `needle in hay`. -/
def containsStr (hay needle : String) : Bool := containsSub needle.data hay.data

/-! ## Entity resolver (src/entity_resolver.py)

Fixed ontology tables, fuzzy matching and the resolution pipeline. -/

/-- Entity kinds of the fixed ontology (`EntityType` in the source). -/
inductive EntityType where
  | PERSON
  | SKILL
  | COMPANY
  | ROLE
  | LOCATION
  | CERTIFICATION
  | EDUCATION
deriving DecidableEq, Repr

/-- Result record of one entity resolution (`ResolvedEntity` in the source). -/
structure ResolvedEntity where
  original : String
  canonical : String
  entity_type : EntityType
  confidence : ℚ
  is_known : Bool
deriving DecidableEq, Repr

/-- The canonical skills set (`CANONICAL_SKILLS`); the source lists
"GraphQL" twice inside one set literal, which denotes a single element. -/
def CANONICAL_SKILLS : List String :=
  [ "Python", "JavaScript", "TypeScript", "Java", "C++", "C#", "C", "Go", "Rust",
    "Ruby", "PHP", "Swift", "Kotlin", "Scala", "R", "MATLAB", "Perl", "Shell",
    "Bash", "PowerShell", "SQL", "NoSQL", "GraphQL",
    "React", "Angular", "Vue.js", "Next.js", "Svelte", "HTML", "CSS", "SASS",
    "Tailwind CSS", "Bootstrap", "jQuery", "Redux", "Webpack", "Vite",
    "Node.js", "Django", "Flask", "FastAPI", "Spring Boot", "Express.js",
    "Ruby on Rails", "ASP.NET", "Laravel", "NestJS", "Gin", "Echo",
    "PostgreSQL", "MySQL", "MongoDB", "Redis", "Elasticsearch", "Cassandra",
    "DynamoDB", "SQLite", "Oracle", "SQL Server", "Neo4j", "Firebase",
    "AWS", "Azure", "GCP", "Docker", "Kubernetes", "Terraform", "Ansible",
    "Jenkins", "GitLab CI", "GitHub Actions", "CircleCI", "Nginx", "Apache",
    "Linux", "Unix", "Windows Server",
    "Machine Learning", "Deep Learning", "TensorFlow", "PyTorch", "Scikit-learn",
    "Pandas", "NumPy", "Keras", "NLP", "Computer Vision", "Data Science",
    "Data Analysis", "Data Engineering", "ETL", "Apache Spark", "Hadoop",
    "Airflow", "dbt", "Tableau", "Power BI", "Looker",
    "iOS", "Android", "React Native", "Flutter", "SwiftUI", "Jetpack Compose",
    "Jest", "Pytest", "JUnit", "Selenium", "Cypress", "Playwright", "TDD",
    "BDD", "Unit Testing", "Integration Testing", "E2E Testing",
    "Microservices", "REST API", "gRPC", "OAuth", "JWT",
    "CI/CD", "Agile", "Scrum", "Kanban", "Design Patterns", "SOLID",
    "Git", "GitHub", "GitLab", "Bitbucket", "Jira", "Confluence",
    "Slack", "VS Code", "IntelliJ", "Figma", "Postman",
    "Leadership", "Communication", "Problem Solving", "Teamwork",
    "Project Management", "Time Management", "Critical Thinking",
    "AWS Certified", "Azure Certified", "GCP Certified", "PMP",
    "Scrum Master", "CISSP", "CPA", "CFA", "Six Sigma" ]

/-- The hand-curated alias table for skills (`SKILL_VARIATIONS`). -/
def SKILL_VARIATIONS : List (String × String) :=
  [ ("js", "JavaScript"),
    ("javascript", "JavaScript"),
    ("java script", "JavaScript"),
    ("ecmascript", "JavaScript"),
    ("ts", "TypeScript"),
    ("typescript", "TypeScript"),
    ("type script", "TypeScript"),
    ("reactjs", "React"),
    ("react.js", "React"),
    ("react js", "React"),
    ("nodejs", "Node.js"),
    ("node", "Node.js"),
    ("node.js", "Node.js"),
    ("vuejs", "Vue.js"),
    ("vue", "Vue.js"),
    ("vue.js", "Vue.js"),
    ("angularjs", "Angular"),
    ("angular.js", "Angular"),
    ("django rest framework", "Django"),
    ("drf", "Django"),
    ("postgres", "PostgreSQL"),
    ("psql", "PostgreSQL"),
    ("mongo", "MongoDB"),
    ("elastic", "Elasticsearch"),
    ("es", "Elasticsearch"),
    ("amazon web services", "AWS"),
    ("amazon aws", "AWS"),
    ("google cloud", "GCP"),
    ("google cloud platform", "GCP"),
    ("microsoft azure", "Azure"),
    ("k8s", "Kubernetes"),
    ("kube", "Kubernetes"),
    ("github actions", "GitHub Actions"),
    ("gitlab ci/cd", "GitLab CI"),
    ("ml", "Machine Learning"),
    ("dl", "Deep Learning"),
    ("ai", "Machine Learning"),
    ("artificial intelligence", "Machine Learning"),
    ("natural language processing", "NLP"),
    ("cv", "Computer Vision"),
    ("c plus plus", "C++"),
    ("cplusplus", "C++"),
    ("cpp", "C++"),
    ("csharp", "C#"),
    ("c sharp", "C#"),
    ("dotnet", "ASP.NET"),
    (".net", "ASP.NET"),
    (".net core", "ASP.NET"),
    ("aspnet", "ASP.NET") ]

/-- The canonical companies set (`CANONICAL_COMPANIES`). -/
def CANONICAL_COMPANIES : List String :=
  [ "Google", "Amazon", "Microsoft", "Apple", "Meta", "Facebook", "Netflix",
    "Tesla", "Uber", "Airbnb", "Salesforce", "Oracle", "IBM", "Intel",
    "Adobe", "Nvidia", "PayPal", "Shopify", "Stripe", "Twilio", "Zoom",
    "Slack", "Spotify", "LinkedIn", "Twitter", "X", "TikTok", "ByteDance",
    "Alibaba", "Tencent", "Samsung", "Sony", "Cisco", "VMware", "Dell",
    "HP", "Accenture", "Deloitte", "McKinsey", "BCG", "Bain", "Goldman Sachs",
    "Morgan Stanley", "JPMorgan", "Bank of America", "Citadel", "Jane Street" ]

/-- The company alias table (`COMPANY_VARIATIONS`). -/
def COMPANY_VARIATIONS : List (String × String) :=
  [ ("fb", "Meta"),
    ("facebook", "Meta"),
    ("facebook inc", "Meta"),
    ("meta platforms", "Meta"),
    ("google inc", "Google"),
    ("google llc", "Google"),
    ("alphabet", "Google"),
    ("amazon.com", "Amazon"),
    ("amazon inc", "Amazon"),
    ("msft", "Microsoft"),
    ("microsoft corp", "Microsoft"),
    ("apple inc", "Apple"),
    ("x corp", "X"),
    ("twitter inc", "Twitter") ]

/-- First-match lookup in an association list (Python dict access; the
lowercased keys of the source dictionaries are pairwise distinct, so first
match agrees with dict semantics). -/
def lookupAL (m : List (String × String)) (k : String) : Option String :=
  (m.find? (fun p => p.1 == k)).map (fun p => p.2)

/-- Lowercase-key lookup map over the canonical skills
(`self._skill_lookup = {s.lower(): s for s in CANONICAL_SKILLS}`). -/
def skill_lookup : List (String × String) :=
  CANONICAL_SKILLS.map (fun s => (pyLower s, s))

/-- Lowercase-key lookup map over the canonical companies. -/
def company_lookup : List (String × String) :=
  CANONICAL_COMPANIES.map (fun s => (pyLower s, s))

/-- Skill alias table with lowercased keys
(`self._skill_variations = {k.lower(): v for k, v in SKILL_VARIATIONS.items()}`). -/
def skill_variations_l : List (String × String) :=
  SKILL_VARIATIONS.map (fun p => (pyLower p.1, p.2))

/-- Company alias table with lowercased keys. -/
def company_variations_l : List (String × String) :=
  COMPANY_VARIATIONS.map (fun p => (pyLower p.1, p.2))

/-- Length of a longest common subsequence of two character lists; the
classical recursion, made structural through a fuel argument (each step
shortens one of the two lists, so fuel `|x| + |y|` never runs out and the
first equation is unreachable from `lcsLen`). -/
def lcsLenF : Nat → List Char → List Char → Nat
  | 0, _, _ => 0
  | _ + 1, [], _ => 0
  | _ + 1, _ :: _, [] => 0
  | fuel + 1, a :: xs, b :: ys =>
      if a == b then lcsLenF fuel xs ys + 1
      else max (lcsLenF fuel (a :: xs) ys) (lcsLenF fuel xs (b :: ys))

/-- Length of a longest common subsequence of two character lists. -/
def lcsLen (x y : List Char) : Nat := lcsLenF (x.length + y.length) x y

/-- rapidfuzz `fuzz.ratio`: normalized indel similarity on the 0..100 scale.
Indel distance is `|a| + |b| - 2 * lcs(a,b)`, so the similarity equals
`200 * lcs(a,b) / (|a| + |b|)`; two empty strings score 100. -/
def fuzzSim (a b : String) : ℚ :=
  if a.length + b.length = 0 then 100
  else (200 * (lcsLen a.data b.data : ℚ)) / ((a.length : ℚ) + (b.length : ℚ))

/-- rapidfuzz `process.extractOne` with scorer `fuzz.ratio` and no score
cutoff: the first choice attaining the maximal score (later choices replace
the running best only on a strictly greater score). -/
def extractOne (query : String) (choices : List String) : Option (String × ℚ) :=
  choices.foldl
    (fun best c =>
      let s := fuzzSim query c
      match best with
      | none => some (c, s)
      | some (_, bs) => if s > bs then some (c, s) else best)
    none

/-- The `EntityResolver._clean_entity_name`: collapse whitespace, then title-case. -/
def clean_entity_name (name : String) : String :=
  pyTitle (String.intercalate " " (pySplit name))

/-- The `EntityResolver.resolve_skill` with fuzzy threshold `threshold`
(default 85) and strict-mode flag `strict`.  Pipeline: exact alias match,
exact canonical match, fuzzy match at or above the threshold, otherwise an
unknown entity (strict: title-cased original, confidence 0; non-strict:
cleaned name, confidence 0.5). -/
def resolve_skill (threshold : ℚ) (strict : Bool) (skill : String) : ResolvedEntity :=
  match lookupAL skill_variations_l (pyLower (pyStrip skill)) with
  | some canonical =>
      ⟨pyStrip skill, canonical, EntityType.SKILL, 1, true⟩
  | none =>
    match lookupAL skill_lookup (pyLower (pyStrip skill)) with
    | some canonical =>
        ⟨pyStrip skill, canonical, EntityType.SKILL, 1, true⟩
    | none =>
      match extractOne (pyLower (pyStrip skill)) (skill_lookup.map (fun p => p.1)) with
      | some (k, s) =>
          if s ≥ threshold then
            ⟨pyStrip skill, (lookupAL skill_lookup k).getD k, EntityType.SKILL,
              s / 100, true⟩
          else if strict then
            ⟨pyStrip skill, pyTitle (pyStrip skill), EntityType.SKILL, 0, false⟩
          else
            ⟨pyStrip skill, clean_entity_name (pyStrip skill), EntityType.SKILL,
              1/2, false⟩
      | none =>
          if strict then
            ⟨pyStrip skill, pyTitle (pyStrip skill), EntityType.SKILL, 0, false⟩
          else
            ⟨pyStrip skill, clean_entity_name (pyStrip skill), EntityType.SKILL,
              1/2, false⟩

/-- Corporate suffixes stripped by `resolve_company`, in source order. -/
def companySuffixes : List String :=
  [" inc", " inc.", " llc", " ltd", " corp", " corporation", " co", " company"]

/-- Drop the last `n` characters of a string (Python `s[:-n]`). -/
def dropEndStr (s : String) (n : Nat) : String :=
  String.mk (s.data.take (s.data.length - n))

/-- The suffix-stripped, lowercased company name `resolve_company` matches
against its tables: each suffix of `companySuffixes` is tested once, in
order, against the current value. -/
def companyNormalized (company : String) : String :=
  companySuffixes.foldl
    (fun n suf => if endsWithStr n suf then pyStrip (dropEndStr n suf.length) else n)
    (pyLower (pyStrip company))

/-- The `EntityResolver.resolve_company` with fuzzy threshold `threshold`
(default 85): strip corporate suffixes, then the same alias / canonical /
fuzzy pipeline; unknown companies get the cleaned name with confidence 0.5
(there is no strict branch for companies). -/
def resolve_company (threshold : ℚ) (company : String) : ResolvedEntity :=
  match lookupAL company_variations_l (companyNormalized company) with
  | some canonical =>
      ⟨pyStrip company, canonical, EntityType.COMPANY, 1, true⟩
  | none =>
    match lookupAL company_lookup (companyNormalized company) with
    | some canonical =>
        ⟨pyStrip company, canonical, EntityType.COMPANY, 1, true⟩
    | none =>
      match extractOne (companyNormalized company) (company_lookup.map (fun p => p.1)) with
      | some (k, s) =>
          if s ≥ threshold then
            ⟨pyStrip company, (lookupAL company_lookup k).getD k, EntityType.COMPANY,
              s / 100, true⟩
          else
            ⟨pyStrip company, clean_entity_name (pyStrip company), EntityType.COMPANY,
              1/2, false⟩
      | none =>
          ⟨pyStrip company, clean_entity_name (pyStrip company), EntityType.COMPANY,
            1/2, false⟩

/-! ## Lexical index (src/bm25_search.py)

The tokenizer applies eleven `re.sub` normalizations and then
`re.findall(r'\b[a-z0-9+#]+\b', text)`.  Each substitution pattern has the
shape `\b PRE MID POST \b` where `PRE`/`POST` are literals and `MID` is
nothing, an optional dot (`\.?`), or a whitespace star (`\s*`).  The matcher
below reproduces the regex semantics for exactly these shapes: for `\.?` both
greedy alternatives are tried; for `\s*` only the maximal run is viable
because the following literal starts with a non-whitespace character and
shrinking the run can never satisfy it. -/

/-- Middle piece of a skill-normalization pattern. -/
inductive MidTok where
  | noMid
  | dotOpt
  | wsMany
deriving DecidableEq

/-- One `re.sub` skill-normalization rule `\b pre mid post \b -> repl`. -/
structure SubPat where
  pre : List Char
  mid : MidTok
  post : List Char
  repl : List Char

/-- The eleven skill normalizations of `BM25Index._tokenize`, in source
order.  The last three rules replace a token by itself. -/
def bm25SubPats : List SubPat :=
  [ ⟨"react".data, MidTok.dotOpt, "js".data, "reactjs".data⟩,
    ⟨"node".data, MidTok.dotOpt, "js".data, "nodejs".data⟩,
    ⟨"vue".data, MidTok.dotOpt, "js".data, "vuejs".data⟩,
    ⟨"type".data, MidTok.wsMany, "script".data, "typescript".data⟩,
    ⟨"java".data, MidTok.wsMany, "script".data, "javascript".data⟩,
    ⟨"c++".data, MidTok.noMid, [], "cplusplus".data⟩,
    ⟨"c#".data, MidTok.noMid, [], "csharp".data⟩,
    ⟨".net".data, MidTok.noMid, [], "dotnet".data⟩,
    ⟨"aws".data, MidTok.noMid, [], "aws".data⟩,
    ⟨"gcp".data, MidTok.noMid, [], "gcp".data⟩,
    ⟨"azure".data, MidTok.noMid, [], "azure".data⟩ ]

/-- Attempt to match `p` at the position starting with `c` (character before
it: `prev`).  On success returns the last matched text character (for the
next boundary/scan state) and the total number of characters consumed,
counting `c`. -/
def matchAt (p : SubPat) (prev c : Char) (cs : List Char) : Option (Char × Nat) :=
  if !(xorB (isWordC prev) (isWordC c)) then none
  else if !(leadsList p.pre (c :: cs)) then none
  else
    let preLen := p.pre.length
    let rest1 := (c :: cs).drop preLen
    let tryPost : Nat → List Char → Option (Char × Nat) := fun consumedMid r =>
      if leadsList p.post r then
        let lastc := p.post.getLastD (p.pre.getLastD c)
        let rest2 := r.drop p.post.length
        if xorB (isWordC lastc) (headWord rest2) then
          some (lastc, preLen + consumedMid + p.post.length)
        else none
      else none
    match p.mid with
    | MidTok.noMid => tryPost 0 rest1
    | MidTok.dotOpt =>
        match rest1 with
        | '.' :: r2 => (tryPost 1 r2).orElse (fun _ => tryPost 0 rest1)
        | _ => tryPost 0 rest1
    | MidTok.wsMany =>
        let ws := rest1.takeWhile isSpaceC
        tryPost ws.length (rest1.drop ws.length)

/-- Left-to-right scan of `re.sub` for one rule, made structural through a
fuel argument: every step consumes at least one character (a successful
match consumes the whole matched text, whose first character is `c`), so
fuel equal to the text length never runs out.  Non-overlapping matches are
replaced, scanning resumes after each match, and the boundary state carries
the last character of the matched original text. -/
def subScanF (p : SubPat) : Nat → Char → List Char → List Char
  | 0, _, rest => rest
  | _ + 1, _, [] => []
  | fuel + 1, prev, c :: cs =>
      match matchAt p prev c cs with
      | some (lastc, n) => p.repl ++ subScanF p fuel lastc (cs.drop (n - 1))
      | none => c :: subScanF p fuel c cs

/-- The `re.sub` scan for one rule (fuel instantiated to the text length). -/
def subScan (p : SubPat) (prev : Char) (l : List Char) : List Char :=
  subScanF p l.length prev l

/-- All eleven substitutions applied in source order (initial boundary state
is a non-word character). -/
def applySubs (l : List Char) : List Char :=
  bm25SubPats.foldl (fun t p => subScan p ' ' t) l

/-- Character class `[a-z0-9+#]` of the token regex. -/
def isTokC (c : Char) : Bool :=
  ('a' ≤ c && c ≤ 'z') || ('0' ≤ c && c ≤ '9') || c == '+' || c == '#'

/-- Backtracking step for the trailing `\b` of `\b[a-z0-9+#]+\b`: given the
maximal class run reversed and the word-status of the character after it,
drop trailing characters until the boundary holds; a dropped character
becomes the next-character of the shorter run. -/
def shrinkRev (nextW : Bool) : List Char → Option (Char × List Char)
  | [] => none
  | x :: xs => if xorB (isWordC x) nextW then some (x, xs) else shrinkRev (isWordC x) xs

/-- The `re.findall(r'\b[a-z0-9+#]+\b', text)`: leftmost non-overlapping matches;
at each candidate position the engine requires `\b`, takes the maximal class
run and backtracks its end until the trailing `\b` holds.  Structural
through a fuel argument; every step consumes at least one character, so fuel
equal to the text length never runs out. -/
def findTokensF : Nat → Char → List Char → List (List Char)
  | 0, _, _ => []
  | _ + 1, _, [] => []
  | fuel + 1, prev, c :: cs =>
      if xorB (isWordC prev) (isWordC c) && isTokC c then
        match shrinkRev (headWord ((c :: cs).dropWhile isTokC))
            ((c :: cs).takeWhile isTokC).reverse with
        | some (x, xs) =>
            ((x :: xs).reverse) :: findTokensF fuel x ((c :: cs).drop (xs.length + 1))
        | none => findTokensF fuel c cs
      else findTokensF fuel c cs

/-- Token `findall` (fuel instantiated to the text length). -/
def findTokens (prev : Char) (l : List Char) : List (List Char) :=
  findTokensF l.length prev l

/-- Stop-word set of `BM25Index._tokenize`. -/
def bm25Stopwords : List String :=
  [ "the", "a", "an", "and", "or", "but", "in", "on", "at", "to", "for",
    "of", "with", "by", "is", "are", "was", "were", "be", "been", "have",
    "has", "had", "do", "does", "did", "will", "would", "could", "should",
    "may", "might", "can" ]

/-- The `BM25Index._tokenize`: lowercase, apply the skill normalizations, token
findall, then drop length-1 tokens and stop words. -/
def tokenize (text : String) : List String :=
  ((findTokens ' ' (applySubs ((pyLower text).data))).map String.mk).filter
    (fun t => t.length > 1 && !(bm25Stopwords.contains t))

/-- One search hit of `BM25Index.search` (`BM25SearchResult`). -/
structure BM25SearchResult where
  content : String
  score : ℚ
  index : Nat
deriving DecidableEq, Repr

/-- Mutable fields of the `BM25Index` object; `index` is `some corpus` when
`BM25Okapi` has been fitted on `corpus`, `none` before any `build_index`. -/
structure BM25IndexState where
  index : Option (List (List String))
  documents : List String
  tokenized_docs : List (List String)
deriving DecidableEq

/-- The fresh `BM25Index()` object (`_index = None`, no documents). -/
def emptyBM25Index : BM25IndexState := ⟨none, [], []⟩

/-- The `BM25Index.build_index`: tokenize every document and fit the
(externally supplied) scorer on the tokenized corpus, overwriting all
previous state. -/
def build_index (docs : List String) : BM25IndexState :=
  ⟨some (docs.map tokenize), docs, docs.map tokenize⟩

/-- Stable insertion of `x` into a descending-sorted list: `x` goes after
every element whose key is at least its own, so elements inserted earlier
(appearing earlier in the original list) stay first among equal keys. -/
def insertDescBy {α : Type} (key : α → ℚ) (x : α) : List α → List α
  | [] => [x]
  | y :: ys => if key y ≥ key x then y :: insertDescBy key x ys else x :: y :: ys

/-- Stable descending sort by key: extensionally Python's
`list.sort(key=..., reverse=True)` (stable, descending by key). -/
def stableSortDesc {α : Type} (key : α → ℚ) (l : List α) : List α :=
  l.foldl (fun acc x => insertDescBy key x acc) []

/-- Stable descending sort by score (Python `list.sort(key=..., reverse=True)`
keeps the original order of equal keys). -/
def sortByScoreDesc (l : List BM25SearchResult) : List BM25SearchResult :=
  stableSortDesc (fun r => r.score) l

/-- The `BM25Index.search` with the library scorer `getScores` (rank-bm25's
`BM25Okapi.get_scores`, external to the repository) as a parameter: empty
index or empty query tokenization yield `[]`; otherwise keep strictly
positive scores, sort descending, truncate to `top_k`. -/
def bm25search (getScores : List (List String) → List String → List ℚ)
    (st : BM25IndexState) (query : String) (top_k : Nat) : List BM25SearchResult :=
  match st.index with
  | none => []
  | some corpus =>
      if st.documents.isEmpty then []
      else if (tokenize query).isEmpty then []
      else
        (sortByScoreDesc ((getScores corpus (tokenize query)).enum.filterMap
          (fun p =>
            if p.2 > 0 then some (⟨st.documents.getD p.1 "", p.2, p.1⟩ : BM25SearchResult)
            else none))).take top_k

/-! ## Score fusion (src/bm25_search.py, `hybrid_search`) -/

/-- Python `max` over a rational list, with the default the caller supplies
for the empty case (the source guards emptiness explicitly). -/
def maxQ : List ℚ → ℚ → ℚ
  | [], d => d
  | x :: xs, _ => xs.foldl max x

/-- Python `min` over a rational list with an explicit empty default. -/
def minQ : List ℚ → ℚ → ℚ
  | [], d => d
  | x :: xs, _ => xs.foldl min x

/-- Round half to even (Python `round` on the idealised rational value). -/
def roundHalfEven (q : ℚ) : ℤ :=
  let f := ⌊q⌋
  let r := q - f
  if r < 1/2 then f
  else if r > 1/2 then f + 1
  else if f % 2 = 0 then f else f + 1

/-- Python `round(x, 3)` on the idealised rational value. -/
def round3 (q : ℚ) : ℚ := (roundHalfEven (q * 1000) : ℚ) / 1000

/-- BM25 score map normalization: map each kept (index, score) pair to
`score / max` when the map is non-empty and its maximum is positive. -/
def bm25NormPairs (rs : List BM25SearchResult) : List (Nat × ℚ) :=
  let m := rs.map (fun r => (r.index, r.score))
  if m.isEmpty then m
  else
    let maxv := maxQ (m.map (fun p => p.2)) 0
    if maxv > 0 then m.map (fun p => (p.1, p.2 / maxv)) else m

/-- The `bm25_score_map.get(i, 0.0)` after normalization. -/
def lookupScore (m : List (Nat × ℚ)) (i : Nat) : ℚ :=
  ((m.find? (fun p => p.1 == i)).map (fun p => p.2)).getD 0

/-- The normalized BM25 score map `hybrid_search` builds for one call:
rebuild the index over `documents` and search with `top_k = len(documents)`. -/
def bm25NormOf (getScores : List (List String) → List String → List ℚ)
    (documents : List String) (query : String) : List (Nat × ℚ) :=
  bm25NormPairs (bm25search getScores (build_index documents) query documents.length)

/-- The `max(vector_scores) if vector_scores else 1.0`. -/
def maxVector (vs : List ℚ) : ℚ := maxQ vs 1

/-- The `min(vector_scores) if vector_scores else 0.0`. -/
def minVector (vs : List ℚ) : ℚ := minQ vs 0

/-- The `range_vector = max - min if max != min else 1.0`: the degenerate range
is replaced by 1 so the normalization never divides by zero. -/
def rangeVector (vs : List ℚ) : ℚ :=
  if maxVector vs ≠ minVector vs then maxVector vs - minVector vs else 1

/-- Min-max normalization of the vector scores. -/
def normalizedVector (vs : List ℚ) : List ℚ :=
  vs.map (fun s => (s - minVector vs) / rangeVector vs)

/-- The `normalized_vector[i] if i < len(normalized_vector) else 0.0`. -/
def vecNormAt (vs : List ℚ) (i : Nat) : ℚ := (normalizedVector vs).getD i 0

/-- The `graph_bonus[i] if i < len(graph_bonus) else 0.0`, after defaulting a
missing bonus list to `[0.0] * len(documents)`. -/
def graphAt (gb : Option (List ℚ)) (nDocs i : Nat) : ℚ :=
  (gb.getD (List.replicate nDocs 0)).getD i 0

/-- One output row of `hybrid_search` (`content`, `score`, `index` and the
rounded `score_breakdown` entries). -/
structure HybridResult where
  content : String
  score : ℚ
  index : Nat
  bm25_breakdown : ℚ
  vector_breakdown : ℚ
  graph_breakdown : ℚ
deriving DecidableEq, Repr

/-- The row `hybrid_search` computes for document `doc` at position `i`. -/
def hybridRow (getScores : List (List String) → List String → List ℚ)
    (query : String) (documents : List String) (vector_scores : List ℚ)
    (bm25_weight vector_weight graph_weight : ℚ) (graph_bonus : Option (List ℚ))
    (i : Nat) (doc : String) : HybridResult :=
  let bm := lookupScore (bm25NormOf getScores documents query) i
  let vec := vecNormAt vector_scores i
  let g := graphAt graph_bonus documents.length i
  ⟨doc, bm25_weight * bm + vector_weight * vec + graph_weight * g, i,
    round3 bm, round3 vec, round3 g⟩

/-- Stable descending sort of hybrid rows by fused score. -/
def sortHybridDesc (l : List HybridResult) : List HybridResult :=
  stableSortDesc (fun r => r.score) l

/-- The `hybrid_search`: the module-level singleton (`get_bm25_index`) is the
explicit `priorIndex` argument; `build_index` immediately overwrites all of
its fields, the fused rows are computed per document, sorted descending by
fused score and truncated to `top_k`.  Returns the results together with the
singleton state left behind for the next call. -/
def hybrid_search (getScores : List (List String) → List String → List ℚ)
    (priorIndex : Option BM25IndexState)
    (query : String) (documents : List String) (vector_scores : List ℚ)
    (top_k : Nat) (bm25_weight vector_weight graph_weight : ℚ)
    (graph_bonus : Option (List ℚ)) : List HybridResult × BM25IndexState :=
  let _singleton := priorIndex.getD emptyBM25Index
  let st := build_index documents
  let results := documents.enum.map
    (fun p => hybridRow getScores query documents vector_scores
      bm25_weight vector_weight graph_weight graph_bonus p.1 p.2)
  ((sortHybridDesc results).take top_k, st)

/-! ## Evidence filter (api/routes/analyze.py, `parse_reranked_to_candidates`)

The skill matching (`extract_skills_from_text`) and the thresholding,
deduplication and evidence logic are embedded exactly.  The remaining text
utilities of the module (`extract_candidate_name`,
`extract_experience_summary`) and the percent formatting of f-strings are
presentation helpers whose output the claims quantify over; they enter the
embedding as explicit function parameters. -/

/-- Python `str.upper` (ASCII case mapping, per character). -/
def pyUpper (s : String) : String := String.mk (s.data.map Char.toUpper)

/-- Word-bounded literal search: Python `re.search(rf'\b{skill}\b', text)`
for a literal pattern fragment — an occurrence of `lit` whose two ends both
sit on word boundaries (word-character status differs across each end). -/
def searchWB (lit : List Char) : Char → List Char → Bool
  | _, [] => false
  | prev, c :: cs =>
      (xorB (isWordC prev) (isWordC c) && leadsList lit (c :: cs)
        && xorB (isWordC (lit.getLastD c)) (headWord ((c :: cs).drop lit.length)))
      || searchWB lit c cs

/-- The fixed skill-pattern list of `extract_skills_from_text`
(api/routes/analyze.py), each entry written exactly as the Python regex
fragment (so its length drives the short-name uppercasing rule). -/
def common_skills : List String :=
  [ "python", "java", "javascript", "typescript", "sql", "c\\+\\+", "c#", "go",
    "rust", "ruby", "php", "swift", "kotlin",
    "aws", "azure", "gcp", "docker", "kubernetes", "terraform",
    "react", "angular", "vue", "node\\.js", "django", "flask", "fastapi",
    "spring", "express",
    "postgresql", "mongodb", "redis", "mysql", "elasticsearch", "cassandra",
    "machine learning", "deep learning", "nlp", "tensorflow", "pytorch",
    "scikit-learn",
    "data analysis", "data science", "pandas", "spark", "hadoop", "tableau",
    "power bi",
    "ci/cd", "jenkins", "git", "linux", "ansible", "prometheus", "grafana",
    "agile", "scrum", "kanban",
    "rest api", "graphql", "microservices", "grpc" ]

/-- The literal text a skill-pattern fragment matches: the source regex
fragments only escape `+` and `.`, so dropping backslashes undoes both
`replace` calls of the display-name computation as well. -/
def skillLiteral (skill : String) : List Char :=
  skill.data.filter (fun c => c ≠ '\\')

/-- Display name of a matched skill: unescape, title-case, and uppercase
names whose raw pattern is at most three characters (`SQL`, `AWS`, ...). -/
def displayName (skill : String) : String :=
  let d := pyTitle (String.mk (skillLiteral skill))
  if skill.length ≤ 3 then pyUpper d else d

/-- The `extract_skills_from_text` of api/routes/analyze.py: word-boundary
search of each fixed pattern over the lowercased text, collecting display
names in list order. -/
def extract_skills_from_text (text : String) : List String :=
  common_skills.filterMap (fun skill =>
    if searchWB (skillLiteral skill) ' ' (pyLower text).data then
      some (displayName skill)
    else none)

/-- AUDIT FIX 1 constant: candidates below 30 percent relevance are rejected. -/
def MIN_CONFIDENCE : ℚ := 3/10

/-- AUDIT FIX 5 constant: at least one matched skill required. -/
def MIN_SKILLS_FOR_EVIDENCE : Nat := 1

/-- Above this score the evidence requirement is relaxed. -/
def HIGH_SCORE_THRESHOLD : ℚ := 3/5

/-- One reranked item: a dict whose `content` and `relevance_score` entries
may be absent (`item.get` defaults apply). -/
structure RerankItem where
  content : Option String
  relevance_score : Option ℚ
deriving DecidableEq

/-- The `CandidatePreview` response model fields produced by the filter. -/
structure CandidatePreview where
  name : String
  score : ℚ
  match_reason : String
  skills_matched : List String
  experience_summary : String
deriving DecidableEq

/-- The regex/format presentation helpers `parse_reranked_to_candidates`
calls (`extract_candidate_name`, `extract_experience_summary`, f-string
percent formatting). -/
structure TextHelpers where
  extractName : String → String
  expSummary : String → String
  fmtPercent : ℚ → String

/-- The `create_match_reason` (its `content` argument is unused in the source
body and omitted here). -/
def create_match_reason (H : TextHelpers) (matched : List String) (score : ℚ) : String :=
  if matched.isEmpty then "Relevance score: " ++ H.fmtPercent score
  else if matched.length ≥ 3 then
    "Strong match: " ++ String.intercalate ", " (matched.take 3) ++ " + "
      ++ toString (matched.length - 3) ++ " more"
  else "Matches: " ++ String.intercalate ", " matched

/-- The `normalized_score = max(0.0, min(1.0, (score + 10) / 20))`. -/
def normalizeRerankScore (s : ℚ) : ℚ := max 0 (min 1 ((s + 10) / 20))

/-- Normalized score of one item (`item.get("relevance_score", 0.5)`). -/
def itemNormScore (item : RerankItem) : ℚ :=
  normalizeRerankScore (item.relevance_score.getD (1/2))

/-- The `list(set(resume_skills) & set(job_skills))`: the matched-skill set
(Python's set order is unspecified; the claims only use the set's elements). -/
def interSkills (resume job : List String) : List String :=
  resume.dedup.filter (fun s => job.contains s)

/-- The `skills_matched` of one item: intersection with the job skills when the
job query yielded any, otherwise the first five resume skills. -/
def itemMatchedSkills (job_skills : List String)
    (item : RerankItem) : List String :=
  if !job_skills.isEmpty then
    interSkills (extract_skills_from_text (pyLower (item.content.getD ""))) job_skills
  else (extract_skills_from_text (pyLower (item.content.getD ""))).take 5

/-- The `CandidatePreview` built for an accepted item. -/
def mkCandidate (H : TextHelpers) (job_skills : List String)
    (item : RerankItem) : CandidatePreview :=
  let content := item.content.getD ""
  let ns := itemNormScore item
  let matched := itemMatchedSkills job_skills item
  ⟨H.extractName content, round3 ns, create_match_reason H matched ns,
    matched.take 5, H.expSummary content⟩

/-- Final stable descending sort of the accepted candidates. -/
def sortCandidatesDesc (l : List CandidatePreview) : List CandidatePreview :=
  stableSortDesc (fun c => c.score) l

/-- The filtering loop of `parse_reranked_to_candidates`: stop at `top_k`
accepted candidates; skip names already seen (a rejected name is still
recorded as seen); reject below `MIN_CONFIDENCE`; reject evidence-free
candidates below `HIGH_SCORE_THRESHOLD`; finally sort by score descending. -/
def parseLoop (H : TextHelpers) (top_k : Nat) (job_skills : List String) :
    List RerankItem → List String → List CandidatePreview → List CandidatePreview
  | [], _, acc => sortCandidatesDesc acc
  | item :: rest, seen, acc =>
      if acc.length ≥ top_k then sortCandidatesDesc acc
      else if seen.contains (pyLower (H.extractName (item.content.getD ""))) then
        parseLoop H top_k job_skills rest seen acc
      else if itemNormScore item < MIN_CONFIDENCE then
        parseLoop H top_k job_skills rest
          (seen ++ [pyLower (H.extractName (item.content.getD ""))]) acc
      else if (itemMatchedSkills job_skills item).length < MIN_SKILLS_FOR_EVIDENCE
          ∧ itemNormScore item < HIGH_SCORE_THRESHOLD then
        parseLoop H top_k job_skills rest
          (seen ++ [pyLower (H.extractName (item.content.getD ""))]) acc
      else
        parseLoop H top_k job_skills rest
          (seen ++ [pyLower (H.extractName (item.content.getD ""))])
          (acc ++ [mkCandidate H job_skills item])

/-- The `parse_reranked_to_candidates(reranked, top_k, job_query)`; the job
skills come from the lowercased job query. -/
def parse_reranked_to_candidates (H : TextHelpers) (reranked : List RerankItem)
    (top_k : Nat) (job_query : String) : List CandidatePreview :=
  parseLoop H top_k (extract_skills_from_text (pyLower job_query)) reranked [] []

/-! ## Retrieval fallback controller (src/dual_retrieval.py) -/

/-- Outcome of one call to the external retrieval backend `rag.aquery`:
either a returned string or a raised exception. -/
inductive RagOutcome where
  | ok (resp : String)
  | err (msg : String)
deriving DecidableEq

/-- The `RetrievalResult` of the source, with the `sources` dict split into its
two lists (`attempted_modes`, `errors`; the source never appends to
`errors`). -/
structure RetrievalResult where
  response : String
  mode_used : String
  attempted_modes : List String
  errors : List String
  fallback_used : Bool
deriving DecidableEq

/-- The `DualLevelRetrieval.FALLBACK_CHAIN`, most sophisticated to simplest. -/
def FALLBACK_CHAIN : List String := ["mix", "hybrid", "local", "naive"]

/-- The fixed user-safe apology returned when every strategy fails. -/
def APOLOGY_RESPONSE : String :=
  "Unable to retrieve relevant information. Please try rephrasing your query."

/-- The `DualLevelRetrieval.query_with_mode`: a raised backend error and a falsy
(empty) response are both mapped to `(None, mode)`; a non-empty response is
returned as-is with its mode. -/
def query_with_mode (aquery : String → String → RagOutcome)
    (query mode : String) : Option String × String :=
  match aquery query mode with
  | RagOutcome.err _ => (none, mode)
  | RagOutcome.ok r => if r.isEmpty then (none, mode) else (some r, mode)

/-- Chain construction of `query_with_fallback`: a preferred mode inside the
canonical chain starts there; an unknown preferred mode is prepended to the
whole canonical chain. -/
def build_chain (preferred : String) : List String :=
  if preferred ∈ FALLBACK_CHAIN then
    FALLBACK_CHAIN.drop (FALLBACK_CHAIN.findIdx (fun m => m == preferred))
  else preferred :: FALLBACK_CHAIN

/-- The attempt loop of `query_with_fallback`: record each attempted mode,
stop at the first successful response, and fall through to the apology
result with `mode_used = "none"` when the chain is exhausted. -/
def run_chain (aquery : String → String → RagOutcome) (query preferred : String) :
    List String → List String → RetrievalResult
  | [], attempted => ⟨APOLOGY_RESPONSE, "none", attempted, [], true⟩
  | mode :: rest, attempted =>
      let attemptedN := attempted ++ [mode]
      match query_with_mode aquery query mode with
      | (some r, used) => ⟨r, used, attemptedN, [], used != preferred⟩
      | (none, _) => run_chain aquery query preferred rest attemptedN

/-- The `DualLevelRetrieval.query_with_fallback`. -/
def query_with_fallback (aquery : String → String → RagOutcome)
    (query preferred : String) : RetrievalResult :=
  run_chain aquery query preferred (build_chain preferred) []

/-! ## Grounding validator (src/dual_retrieval.py, `validate_grounded_response`)

Check 3 extracts name-like tokens with
`re.findall(r'\b([A-Z][a-z]+(?:\s+[A-Z][a-z]+){1,2})\b', text)`.
The matcher below reproduces the regex semantics for this pattern: at a
position with a word boundary it parses one capitalized word (`[A-Z]`
followed by a maximal non-empty `[a-z]+` run), then greedily two, else one,
repetitions of whitespace plus a capitalized word, and finally requires the
trailing boundary; shrinking a `[a-z]+` run can never recover a failed
continuation (the next character would again be a lowercase word character),
so only the repetition count backtracks. -/

/-- ASCII class `[A-Z]` of the name pattern. -/
def isUpperAZ (c : Char) : Bool := 'A' ≤ c && c ≤ 'Z'

/-- ASCII class `[a-z]` of the name pattern. -/
def isLowerAZ (c : Char) : Bool := 'a' ≤ c && c ≤ 'z'

/-- Parse one capitalized word `[A-Z][a-z]+` (maximal lowercase run).
Returns the consumed characters and the remaining text. -/
def parseCapWord : List Char → Option (List Char × List Char)
  | [] => none
  | c :: cs =>
      if isUpperAZ c then
        let low := cs.takeWhile isLowerAZ
        if low.isEmpty then none
        else some (c :: low, cs.drop low.length)
      else none

/-- Parse one repetition `\s+[A-Z][a-z]+` (maximal whitespace run, then a
capitalized word). -/
def parseRepWord (l : List Char) : Option (List Char × List Char) :=
  let ws := l.takeWhile isSpaceC
  if ws.isEmpty then none
  else
    match parseCapWord (l.drop ws.length) with
    | some (w, rest) => some (ws ++ w, rest)
    | none => none

/-- Try `n` further repetitions of `\s+[A-Z][a-z]+` after a first word, then
the trailing `\b` (the next character must not be a word character). -/
def parseReps : Nat → List Char → List Char → Option (List Char × List Char)
  | 0, acc, rest => if headWord rest then none else some (acc, rest)
  | n + 1, acc, rest =>
      match parseRepWord rest with
      | some (w, restN) => parseReps n (acc ++ w) restN
      | none => none

/-- Attempt the full name pattern at one position (the leading `\b` holds
when the previous character is not a word character, since the first matched
character `[A-Z]` is one).  Greedy: two repetitions first, then one. -/
def matchName (prev : Char) (l : List Char) : Option (List Char × List Char) :=
  if isWordC prev then none
  else
    match parseCapWord l with
    | none => none
    | some (w1, rest1) =>
        match parseReps 2 w1 rest1 with
        | some r => some r
        | none => parseReps 1 w1 rest1

/-- The `re.findall` scan for the name pattern: leftmost non-overlapping
matches, advancing one character after a failed attempt.  Structural
through a fuel argument; every step consumes at least one character (a
successful match always consumes `c`, so dropping `w.length` characters
from `c :: cs` is dropping `w.length - 1` from `cs`), hence fuel equal to
the text length never runs out. -/
def findNamesF : Nat → Char → List Char → List (List Char)
  | 0, _, _ => []
  | _ + 1, _, [] => []
  | fuel + 1, prev, c :: cs =>
      match matchName prev (c :: cs) with
      | some (w, _) => w :: findNamesF fuel (w.getLastD c) (cs.drop (w.length - 1))
      | none => findNamesF fuel c cs

/-- Name-pattern `findall` (fuel instantiated to the text length). -/
def findNames (prev : Char) (l : List Char) : List (List Char) :=
  findNamesF l.length prev l

/-- The `normalize_names`: the lowercased name-like tokens of a text (a Python
set; kept as a list, the consumers only use its elements). -/
def normalize_names (text : String) : List String :=
  (findNames ' ' text.data).map (fun w => pyLower (String.mk w))

/-- The fixed list of AI self-disclosure phrases (`hallucination_markers`). -/
def hallucination_markers : List String :=
  [ "i have been trained",
    "as an ai",
    "i don\x27t have access",
    "i cannot access",
    "my knowledge",
    "my training" ]

/-- The `ValidationVerdict`: the `{"valid": ..., "reason": ...}` dict. -/
structure Verdict where
  valid : Bool
  reason : String
deriving DecidableEq

/-- Name-overlap test of check 3: some response name shares a whitespace-
separated word with some context name. -/
def namePartOverlap (response_names context_names : List String) : Bool :=
  response_names.any (fun r =>
    context_names.any (fun c =>
      (pySplit r).any (fun w => (pySplit c).contains w)))

/-- Check 3 gate: context and response both contain name-like tokens, there
is neither an exact nor a partial overlap, and the response does not read as
a no-candidates disclaimer. -/
def namesCheckFails (response context : String) : Bool :=
  let context_names := normalize_names context
  let response_names := normalize_names response
  !context_names.isEmpty && !response_names.isEmpty
    && !(response_names.any (fun r => context_names.contains r))
    && !(namePartOverlap response_names context_names)
    && !(containsStr (pyLower response) "no candidate")
    && !(containsStr (pyLower response) "not find")
    && !(containsStr (pyLower response) "cannot provide")

/-- The `validate_grounded_response(response, context)`: the four checks in
source order, first failure wins. -/
def validate_grounded_response (response context : String) : Verdict :=
  if response.isEmpty || (pyStrip response).length < 10 then
    ⟨false, "Response too short to be meaningful"⟩
  else
    let response_stripped := pyStrip response
    if endsWithStr response_stripped ":" || endsWithStr response_stripped "following" then
      ⟨false, "Response appears truncated"⟩
    else if namesCheckFails response context then
      ⟨false, "Response contains names not found in resume data"⟩
    else if hallucination_markers.any (fun m => containsStr (pyLower response) m) then
      ⟨false, "Response contains self-referential AI statements"⟩
    else ⟨true, ""⟩

/-! ## Helper lemmas -/

lemma foldl_max_le_init : ∀ (xs : List ℚ) (a : ℚ), a ≤ xs.foldl max a
  | [], a => le_refl a
  | x :: xs, a => le_trans (le_max_left a x) (foldl_max_le_init xs (max a x))

lemma mem_le_foldl_max : ∀ (xs : List ℚ) (a x : ℚ), x ∈ xs → x ≤ xs.foldl max a
  | [], _, _, h => absurd h (List.not_mem_nil _)
  | y :: ys, a, x, h => by
      rcases List.mem_cons.mp h with rfl | h
      · exact le_trans (le_max_right a x) (foldl_max_le_init ys (max a x))
      · exact mem_le_foldl_max ys (max a y) x h

lemma foldl_min_le_init : ∀ (xs : List ℚ) (a : ℚ), xs.foldl min a ≤ a
  | [], a => le_refl a
  | x :: xs, a => le_trans (foldl_min_le_init xs (min a x)) (min_le_left a x)

lemma foldl_min_le_mem : ∀ (xs : List ℚ) (a x : ℚ), x ∈ xs → xs.foldl min a ≤ x
  | [], _, _, h => absurd h (List.not_mem_nil _)
  | y :: ys, a, x, h => by
      rcases List.mem_cons.mp h with rfl | h
      · exact le_trans (foldl_min_le_init ys (min a x)) (min_le_right a x)
      · exact foldl_min_le_mem ys (min a y) x h

lemma le_maxQ {l : List ℚ} {x : ℚ} (hx : x ∈ l) (d : ℚ) : x ≤ maxQ l d := by
  cases l with
  | nil => cases hx
  | cons y ys =>
      rcases List.mem_cons.mp hx with rfl | h
      · exact foldl_max_le_init ys x
      · exact mem_le_foldl_max ys y x h

lemma minQ_le {l : List ℚ} {x : ℚ} (hx : x ∈ l) (d : ℚ) : minQ l d ≤ x := by
  cases l with
  | nil => cases hx
  | cons y ys =>
      rcases List.mem_cons.mp hx with rfl | h
      · exact foldl_min_le_init ys x
      · exact foldl_min_le_mem ys y x h

lemma getD_zero_cases (l : List ℚ) (i : Nat) : l.getD i 0 = 0 ∨ l.getD i 0 ∈ l := by
  induction l generalizing i with
  | nil => exact Or.inl rfl
  | cons x xs ih =>
      cases i with
      | zero => exact Or.inr (List.mem_cons_self x xs)
      | succ n =>
          rcases ih n with h | h
          · exact Or.inl h
          · exact Or.inr (List.mem_cons_of_mem x h)

lemma lcsLenF_le_left : ∀ (fuel : Nat) (x y : List Char),
    lcsLenF fuel x y ≤ x.length := by
  intro fuel
  induction fuel with
  | zero => intro x y; simp [lcsLenF]
  | succ n ih =>
      intro x y
      match x, y with
      | [], _ => simp [lcsLenF]
      | _ :: _, [] => simp [lcsLenF]
      | a :: xs, b :: ys =>
          simp only [lcsLenF, List.length_cons]
          split
          · have := ih xs ys
            omega
          · have h1 := ih (a :: xs) ys
            have h2 := ih xs (b :: ys)
            simp only [List.length_cons] at h1
            exact Nat.max_le.mpr ⟨h1, by omega⟩

lemma lcsLenF_le_right : ∀ (fuel : Nat) (x y : List Char),
    lcsLenF fuel x y ≤ y.length := by
  intro fuel
  induction fuel with
  | zero => intro x y; simp [lcsLenF]
  | succ n ih =>
      intro x y
      match x, y with
      | [], _ => simp [lcsLenF]
      | _ :: _, [] => simp [lcsLenF]
      | a :: xs, b :: ys =>
          simp only [lcsLenF, List.length_cons]
          split
          · have := ih xs ys
            omega
          · have h1 := ih (a :: xs) ys
            have h2 := ih xs (b :: ys)
            simp only [List.length_cons] at h2
            exact Nat.max_le.mpr ⟨by omega, h2⟩

lemma lcsLen_le_left (x y : List Char) : lcsLen x y ≤ x.length :=
  lcsLenF_le_left _ x y

lemma lcsLen_le_right (x y : List Char) : lcsLen x y ≤ y.length :=
  lcsLenF_le_right _ x y

lemma insertDescBy_perm {α : Type} (key : α → ℚ) (x : α) :
    ∀ l : List α, (insertDescBy key x l).Perm (x :: l)
  | [] => List.Perm.refl _
  | y :: ys => by
      unfold insertDescBy
      split
      · exact ((insertDescBy_perm key x ys).cons y).trans (List.Perm.swap x y ys)
      · exact List.Perm.refl _

lemma stableSortDesc_perm_aux {α : Type} (key : α → ℚ) :
    ∀ (l acc : List α),
      (l.foldl (fun acc x => insertDescBy key x acc) acc).Perm (acc ++ l)
  | [], acc => by simp
  | x :: xs, acc => by
      have h1 := stableSortDesc_perm_aux key xs (insertDescBy key x acc)
      refine h1.trans ?_
      have h2 : (insertDescBy key x acc).Perm (x :: acc) := insertDescBy_perm key x acc
      have h3 : (insertDescBy key x acc ++ xs).Perm ((x :: acc) ++ xs) :=
        h2.append_right xs
      exact h3.trans List.perm_middle.symm

lemma stableSortDesc_perm {α : Type} (key : α → ℚ) (l : List α) :
    (stableSortDesc key l).Perm l := by
  simpa using stableSortDesc_perm_aux key l []

lemma stableSortDesc_length {α : Type} (key : α → ℚ) (l : List α) :
    (stableSortDesc key l).length = l.length :=
  (stableSortDesc_perm key l).length_eq

lemma fuzzSim_nonneg (a b : String) : 0 ≤ fuzzSim a b := by
  unfold fuzzSim
  split
  · norm_num
  · positivity

lemma fuzzSim_le_100 (a b : String) : fuzzSim a b ≤ 100 := by
  unfold fuzzSim
  split
  · norm_num
  · rename_i h
    have hlen : a.length = a.data.length := rfl
    have hlenb : b.length = b.data.length := rfl
    have h1 : lcsLen a.data b.data ≤ a.data.length := lcsLen_le_left _ _
    have h2 : lcsLen a.data b.data ≤ b.data.length := lcsLen_le_right _ _
    have hpos : (0 : ℚ) < (a.length : ℚ) + (b.length : ℚ) := by
      have : 0 < a.length + b.length := Nat.pos_of_ne_zero h
      exact_mod_cast this
    rw [div_le_iff₀ hpos]
    have : (lcsLen a.data b.data : ℚ) * 2 ≤ (a.length : ℚ) + (b.length : ℚ) := by
      rw [hlen, hlenb]
      exact_mod_cast by omega
    nlinarith

lemma extractOne_fold_spec (q : String) :
    ∀ (l : List String) (acc : Option (String × ℚ)) (c : String) (s : ℚ),
      l.foldl
        (fun best x =>
          let sc := fuzzSim q x
          match best with
          | none => some (x, sc)
          | some (_, bs) => if sc > bs then some (x, sc) else best)
        acc = some (c, s) →
      acc = some (c, s) ∨ (c ∈ l ∧ s = fuzzSim q c)
  | [], acc, c, s, h => Or.inl h
  | x :: xs, acc, c, s, h => by
      rcases extractOne_fold_spec q xs _ c s h with h1 | h1
      · cases acc with
        | none =>
            simp only [Option.some.injEq, Prod.mk.injEq] at h1
            obtain ⟨rfl, rfl⟩ := h1
            exact Or.inr ⟨List.mem_cons_self x xs, rfl⟩
        | some p =>
            obtain ⟨b, bs⟩ := p
            simp only at h1
            by_cases hgt : fuzzSim q x > bs
            · rw [if_pos hgt] at h1
              simp only [Option.some.injEq, Prod.mk.injEq] at h1
              obtain ⟨rfl, rfl⟩ := h1
              exact Or.inr ⟨List.mem_cons_self x xs, rfl⟩
            · rw [if_neg hgt] at h1
              exact Or.inl h1
      · exact Or.inr ⟨List.mem_cons_of_mem x h1.1, h1.2⟩

lemma extractOne_spec (q : String) (l : List String) (c : String) (s : ℚ)
    (h : extractOne q l = some (c, s)) : c ∈ l ∧ s = fuzzSim q c := by
  unfold extractOne at h
  rcases extractOne_fold_spec q l none c s h with h1 | h1
  · cases h1
  · exact h1

lemma normalizedVector_mem_bounds {vs : List ℚ} {v : ℚ}
    (hv : v ∈ normalizedVector vs) : 0 ≤ v ∧ v ≤ 1 := by
  rcases List.mem_map.mp hv with ⟨s, hs, rfl⟩
  have hmin : minVector vs ≤ s := minQ_le hs 0
  have hmax : s ≤ maxVector vs := le_maxQ hs 1
  unfold rangeVector
  by_cases hne : maxVector vs ≠ minVector vs
  · rw [if_pos hne]
    have hlt : minVector vs < maxVector vs := lt_of_le_of_ne (hmin.trans hmax) (Ne.symm hne)
    constructor
    · apply div_nonneg <;> linarith
    · rw [div_le_one (by linarith)]
      linarith
  · rw [if_neg hne]
    push_neg at hne
    have hse : s = minVector vs := le_antisymm (hne ▸ hmax) hmin
    rw [hse]
    norm_num

lemma vecNormAt_bounds (vs : List ℚ) (i : Nat) :
    0 ≤ vecNormAt vs i ∧ vecNormAt vs i ≤ 1 := by
  unfold vecNormAt
  rcases getD_zero_cases (normalizedVector vs) i with h | h
  · rw [h]; norm_num
  · exact normalizedVector_mem_bounds h

lemma vecNormAt_default {vs : List ℚ} {i : Nat} (h : vs.length ≤ i) :
    vecNormAt vs i = 0 := by
  unfold vecNormAt
  apply List.getD_eq_default
  unfold normalizedVector
  rw [List.length_map]
  exact h

lemma graphAt_bounds (gb : Option (List ℚ)) (n i : Nat)
    (h : ∀ l, gb = some l → ∀ g ∈ l, 0 ≤ g ∧ g ≤ 1) :
    0 ≤ graphAt gb n i ∧ graphAt gb n i ≤ 1 := by
  unfold graphAt
  cases gb with
  | none =>
      rw [Option.getD_none]
      rcases getD_zero_cases (List.replicate n 0) i with h0 | h0
      · rw [h0]; norm_num
      · rw [List.eq_of_mem_replicate h0]; norm_num
  | some l =>
      rw [Option.getD_some]
      rcases getD_zero_cases l i with h0 | h0
      · rw [h0]; norm_num
      · exact h l rfl _ h0

lemma bm25search_pos (gs : List (List String) → List String → List ℚ)
    (st : BM25IndexState) (q : String) (k : Nat) :
    ∀ r ∈ bm25search gs st q k, 0 < r.score := by
  intro r hr
  unfold bm25search at hr
  split at hr
  · cases hr
  · split at hr
    · cases hr
    · split at hr
      · cases hr
      · have hr2 := List.mem_of_mem_take hr
        unfold sortByScoreDesc at hr2
        have hr3 := (stableSortDesc_perm _ _).mem_iff.mp hr2
        rcases List.mem_filterMap.mp hr3 with ⟨⟨i, s⟩, _, heq⟩
        by_cases hs : s > 0
        · rw [if_pos hs] at heq
          cases heq
          exact hs
        · rw [if_neg hs] at heq
          cases heq

lemma bm25NormPairs_bounds {rs : List BM25SearchResult}
    (hpos : ∀ r ∈ rs, 0 < r.score) :
    ∀ p ∈ bm25NormPairs rs, 0 ≤ p.2 ∧ p.2 ≤ 1 := by
  intro p hp
  unfold bm25NormPairs at hp
  set m := rs.map (fun r => (r.index, r.score)) with hm
  have hval : ∀ q ∈ m, 0 < q.2 := by
    intro q hq
    rcases List.mem_map.mp hq with ⟨r, hr, rfl⟩
    exact hpos r hr
  by_cases hme : m.isEmpty
  · rw [if_pos hme] at hp
    rw [List.isEmpty_iff.mp hme] at hp
    cases hp
  · rw [if_neg hme] at hp
    by_cases hmax : maxQ (m.map (fun p => p.2)) 0 > 0
    · rw [if_pos hmax] at hp
      rcases List.mem_map.mp hp with ⟨q, hq, rfl⟩
      have h1 : 0 < q.2 := hval q hq
      have h2 : q.2 ≤ maxQ (m.map (fun p => p.2)) 0 :=
        le_maxQ (List.mem_map.mpr ⟨q, hq, rfl⟩) 0
      constructor
      · exact div_nonneg h1.le hmax.le
      · rw [div_le_one hmax]
        exact h2
    · exfalso
      have hne : m ≠ [] := by
        intro hcon
        rw [hcon] at hme
        exact hme rfl
      obtain ⟨q, hq⟩ := List.exists_mem_of_ne_nil m hne
      have h1 := hval q hq
      have h2 : q.2 ≤ maxQ (m.map (fun p => p.2)) 0 :=
        le_maxQ (List.mem_map.mpr ⟨q, hq, rfl⟩) 0
      push_neg at hmax
      linarith

lemma lookupScore_bounds {m : List (Nat × ℚ)}
    (hb : ∀ p ∈ m, 0 ≤ p.2 ∧ p.2 ≤ 1) (i : Nat) :
    0 ≤ lookupScore m i ∧ lookupScore m i ≤ 1 := by
  unfold lookupScore
  rcases hf : m.find? (fun p => p.1 == i) with _ | p
  · simp [hf]
  · rw [hf, Option.map_some', Option.getD_some]
    exact hb p (List.mem_of_find?_eq_some hf)

lemma bm25NormOf_bounds (gs : List (List String) → List String → List ℚ)
    (documents : List String) (query : String) (i : Nat) :
    0 ≤ lookupScore (bm25NormOf gs documents query) i ∧
      lookupScore (bm25NormOf gs documents query) i ≤ 1 := by
  apply lookupScore_bounds
  exact bm25NormPairs_bounds (bm25search_pos gs (build_index documents) query documents.length)

lemma hybrid_mem_row {getScores : List (List String) → List String → List ℚ}
    {prior : Option BM25IndexState} {query : String} {documents : List String}
    {vector_scores : List ℚ} {top_k : Nat} {wb wv wg : ℚ} {gb : Option (List ℚ)}
    {r : HybridResult}
    (hr : r ∈ (hybrid_search getScores prior query documents vector_scores
      top_k wb wv wg gb).1) :
    ∃ i doc, (i, doc) ∈ documents.enum ∧
      r = hybridRow getScores query documents vector_scores wb wv wg gb i doc := by
  unfold hybrid_search at hr
  have h1 := List.mem_of_mem_take hr
  unfold sortHybridDesc at h1
  have h2 := (stableSortDesc_perm _ _).mem_iff.mp h1
  rcases List.mem_map.mp h2 with ⟨⟨i, doc⟩, hmem, rfl⟩
  exact ⟨i, doc, hmem, rfl⟩

lemma run_chain_attempted (aquery : String → String → RagOutcome)
    (query preferred : String) :
    ∀ (chain attempted : List String),
      ∃ n, (run_chain aquery query preferred chain attempted).attempted_modes
        = attempted ++ chain.take n := by
  intro chain
  induction chain with
  | nil =>
      intro attempted
      exact ⟨0, by simp [run_chain]⟩
  | cons m ms ih =>
      intro attempted
      unfold run_chain
      split
      · exact ⟨1, by simp⟩
      · obtain ⟨n, hn⟩ := ih (attempted ++ [m])
        refine ⟨n + 1, ?_⟩
        rw [hn]
        simp [List.take_succ_cons]
  
lemma run_chain_all_fail (aquery : String → String → RagOutcome)
    (query preferred : String) :
    ∀ (chain attempted : List String),
      (∀ m ∈ chain, query_with_mode aquery query m = (none, m)) →
      run_chain aquery query preferred chain attempted
        = ⟨APOLOGY_RESPONSE, "none", attempted ++ chain, [], true⟩ := by
  intro chain
  induction chain with
  | nil =>
      intro attempted _
      simp [run_chain]
  | cons m ms ih =>
      intro attempted h
      unfold run_chain
      rw [h m (List.mem_cons_self m ms)]
      show run_chain aquery query preferred ms (attempted ++ [m]) = _
      rw [ih (attempted ++ [m]) (fun x hx => h x (List.mem_cons_of_mem m hx))]
      simp

lemma parseLoop_mem_sound (H : TextHelpers) (top_k : Nat) (job_skills : List String) :
    ∀ (items : List RerankItem) (seen : List String) (acc : List CandidatePreview)
      (c : CandidatePreview),
      c ∈ parseLoop H top_k job_skills items seen acc →
      c ∈ acc ∨ ∃ item ∈ items,
        MIN_CONFIDENCE ≤ itemNormScore item ∧
        (MIN_SKILLS_FOR_EVIDENCE ≤ (itemMatchedSkills job_skills item).length ∨
          HIGH_SCORE_THRESHOLD ≤ itemNormScore item) ∧
        c = mkCandidate H job_skills item := by
  intro items
  induction items with
  | nil =>
      intro seen acc c hc
      unfold parseLoop sortCandidatesDesc at hc
      exact Or.inl ((stableSortDesc_perm _ _).mem_iff.mp hc)
  | cons item rest ih =>
      intro seen acc c hc
      unfold parseLoop at hc
      split at hc
      · unfold sortCandidatesDesc at hc
        exact Or.inl ((stableSortDesc_perm _ _).mem_iff.mp hc)
      · split at hc
        · rcases ih _ _ _ hc with h | ⟨it, hit, hprop⟩
          · exact Or.inl h
          · exact Or.inr ⟨it, List.mem_cons_of_mem _ hit, hprop⟩
        · split at hc
          · rcases ih _ _ _ hc with h | ⟨it, hit, hprop⟩
            · exact Or.inl h
            · exact Or.inr ⟨it, List.mem_cons_of_mem _ hit, hprop⟩
          · split at hc
            · rcases ih _ _ _ hc with h | ⟨it, hit, hprop⟩
              · exact Or.inl h
              · exact Or.inr ⟨it, List.mem_cons_of_mem _ hit, hprop⟩
            · rename_i hlen hseen hmin hev
              rcases ih _ _ _ hc with h | ⟨it, hit, hprop⟩
              · rcases List.mem_append.mp h with h2 | h2
                · exact Or.inl h2
                · have hmk : c = mkCandidate H job_skills item := by
                    simpa using h2
                  refine Or.inr ⟨item, List.mem_cons_self _ _, ?_, ?_, hmk⟩
                  · exact le_of_not_lt hmin
                  · rcases not_and_or.mp hev with h3 | h3
                    · exact Or.inl (le_of_not_lt h3)
                    · exact Or.inr (le_of_not_lt h3)
              · exact Or.inr ⟨it, List.mem_cons_of_mem _ hit, hprop⟩

lemma lcsLenF_zero_of_disjoint :
    ∀ (fuel : Nat) (x y : List Char), (∀ c ∈ x, c ∉ y) → lcsLenF fuel x y = 0 := by
  intro fuel
  induction fuel with
  | zero => intro x y _; simp [lcsLenF]
  | succ n ih =>
      intro x y h
      match x, y with
      | [], _ => simp [lcsLenF]
      | _ :: _, [] => simp [lcsLenF]
      | a :: xs, b :: ys =>
          simp only [lcsLenF]
          have hab : ¬((a == b) = true) := by
            intro hc
            exact (h a (List.mem_cons_self a xs))
              ((beq_iff_eq.mp hc) ▸ List.mem_cons_self b ys)
          rw [if_neg hab]
          rw [ih (a :: xs) ys (fun c hc hm => h c hc (List.mem_cons_of_mem b hm)),
            ih xs (b :: ys) (fun c hc => h c (List.mem_cons_of_mem a hc))]
          simp

lemma fuzzSim_lt_85_small (a k : String) (ha : a.length = 2)
    (h : 3 ≤ k.length ∨ (∀ c ∈ a.data, c ∉ k.data)) : fuzzSim a k < 85 := by
  have hd : a.length + k.length ≠ 0 := by omega
  unfold fuzzSim
  rw [if_neg hd]
  have hpos : (0 : ℚ) < (a.length : ℚ) + (k.length : ℚ) := by
    have : 0 < a.length + k.length := by omega
    exact_mod_cast this
  rw [div_lt_iff₀ hpos]
  have hacast : (a.length : ℚ) = 2 := by exact_mod_cast ha
  rcases h with h | h
  · have hl : lcsLen a.data k.data ≤ 2 := by
      have := lcsLen_le_left a.data k.data
      have hda : a.data.length = 2 := ha
      omega
    have hlq : (lcsLen a.data k.data : ℚ) ≤ 2 := by exact_mod_cast hl
    have hkq : (3 : ℚ) ≤ (k.length : ℚ) := by exact_mod_cast h
    nlinarith
  · have hz : lcsLen a.data k.data = 0 := lcsLenF_zero_of_disjoint _ _ _ h
    rw [hz]
    have hknn : (0 : ℚ) ≤ (k.length : ℚ) := by positivity
    simp only [Nat.cast_zero]
    rw [hacast]
    linarith

lemma resolve_skill_unknown (strict : Bool) (s : String)
    (h1 : lookupAL skill_variations_l (pyLower (pyStrip s)) = none)
    (h2 : lookupAL skill_lookup (pyLower (pyStrip s)) = none)
    (h3 : ∀ k ∈ skill_lookup.map (fun p => p.1),
        fuzzSim (pyLower (pyStrip s)) k < 85) :
    resolve_skill 85 strict s =
      if strict then
        ⟨pyStrip s, pyTitle (pyStrip s), EntityType.SKILL, 0, false⟩
      else
        ⟨pyStrip s, clean_entity_name (pyStrip s), EntityType.SKILL, 1/2, false⟩ := by
  unfold resolve_skill
  simp only [h1, h2]
  rcases he : extractOne (pyLower (pyStrip s)) (skill_lookup.map (fun p => p.1))
    with _ | ⟨k, sc⟩
  · simp only [he]
  · obtain ⟨hk, hsc⟩ := extractOne_spec _ _ _ _ he
    have hlt : sc < 85 := hsc ▸ h3 k hk
    simp only [he]
    rw [if_neg (not_le.mpr hlt)]

lemma resolve_company_unknown (s : String)
    (h1 : lookupAL company_variations_l (companyNormalized s) = none)
    (h2 : lookupAL company_lookup (companyNormalized s) = none)
    (h3 : ∀ k ∈ company_lookup.map (fun p => p.1),
        fuzzSim (companyNormalized s) k < 85) :
    resolve_company 85 s =
      ⟨pyStrip s, clean_entity_name (pyStrip s), EntityType.COMPANY, 1/2, false⟩ := by
  unfold resolve_company
  simp only [h1, h2]
  rcases he : extractOne (companyNormalized s) (company_lookup.map (fun p => p.1))
    with _ | ⟨k, sc⟩
  · simp only [he]
  · obtain ⟨hk, hsc⟩ := extractOne_spec _ _ _ _ he
    have hlt : sc < 85 := hsc ▸ h3 k hk
    simp only [he]
    rw [if_neg (not_le.mpr hlt)]

set_option maxRecDepth 400000 in
lemma fuzz_zz_below_skills :
    ∀ k ∈ skill_lookup.map (fun p => p.1), fuzzSim (pyLower (pyStrip "ZZ")) k < 85 := by
  have he : pyLower (pyStrip "ZZ") = "zz" := by decide
  rw [he]
  have hscan : ∀ k ∈ skill_lookup.map (fun p => p.1),
      3 ≤ k.length ∨ 'z' ∉ k.data := by decide
  intro k hk
  apply fuzzSim_lt_85_small "zz" k (by decide)
  rcases hscan k hk with h | h
  · exact Or.inl h
  · right
    intro c hc
    have hcz : c = 'z' := by
      have : ∀ c ∈ "zz".data, c = 'z' := by decide
      exact this c hc
    rw [hcz]
    exact h

set_option maxRecDepth 400000 in
lemma fuzz_zz_below_companies :
    ∀ k ∈ company_lookup.map (fun p => p.1), fuzzSim (companyNormalized "zz") k < 85 := by
  have he : companyNormalized "zz" = "zz" := by decide
  rw [he]
  have hscan : ∀ k ∈ company_lookup.map (fun p => p.1),
      3 ≤ k.length ∨ 'z' ∉ k.data := by decide
  intro k hk
  apply fuzzSim_lt_85_small "zz" k (by decide)
  rcases hscan k hk with h | h
  · exact Or.inl h
  · right
    intro c hc
    have hcz : c = 'z' := by
      have : ∀ c ∈ "zz".data, c = 'z' := by decide
      exact this c hc
    rw [hcz]
    exact h

lemma resolve_skill_conf_cases (strict : Bool) (s : String) :
    ((resolve_skill 85 strict s).is_known = true
        ∧ 85/100 ≤ (resolve_skill 85 strict s).confidence
        ∧ (resolve_skill 85 strict s).confidence ≤ 1) ∨
    ((resolve_skill 85 strict s).is_known = false
        ∧ (resolve_skill 85 strict s).confidence = if strict then 0 else 1/2) := by
  unfold resolve_skill
  split
  · exact Or.inl ⟨rfl, by norm_num, by norm_num⟩
  · split
    · exact Or.inl ⟨rfl, by norm_num, by norm_num⟩
    · split
      · rename_i k sc heq
        split
        · rename_i hge
          obtain ⟨hk, hsc⟩ := extractOne_spec _ _ _ _ heq
          have hub : sc ≤ 100 := hsc ▸ fuzzSim_le_100 _ _
          refine Or.inl ⟨rfl, ?_, ?_⟩
          · show 85/100 ≤ sc / 100
            linarith
          · show sc / 100 ≤ 1
            linarith
        · split
          · exact Or.inr ⟨rfl, rfl⟩
          · exact Or.inr ⟨rfl, rfl⟩
      · split
        · exact Or.inr ⟨rfl, rfl⟩
        · exact Or.inr ⟨rfl, rfl⟩

lemma resolve_company_conf_cases (s : String) :
    ((resolve_company 85 s).is_known = true
        ∧ 85/100 ≤ (resolve_company 85 s).confidence
        ∧ (resolve_company 85 s).confidence ≤ 1) ∨
    ((resolve_company 85 s).is_known = false
        ∧ (resolve_company 85 s).confidence = 1/2) := by
  unfold resolve_company
  split
  · exact Or.inl ⟨rfl, by norm_num, by norm_num⟩
  · split
    · exact Or.inl ⟨rfl, by norm_num, by norm_num⟩
    · split
      · rename_i k sc heq
        split
        · rename_i hge
          obtain ⟨hk, hsc⟩ := extractOne_spec _ _ _ _ heq
          have hub : sc ≤ 100 := hsc ▸ fuzzSim_le_100 _ _
          refine Or.inl ⟨rfl, ?_, ?_⟩
          · show 85/100 ≤ sc / 100
            linarith
          · show sc / 100 ≤ 1
            linarith
        · exact Or.inr ⟨rfl, rfl⟩
      · exact Or.inr ⟨rfl, rfl⟩

/-! ## Claim theorems -/

set_option maxRecDepth 400000 in
/-- C8: the inputs "js", "JavaScript", "javascript" and " JS " all resolve
through `EntityResolver.resolve_skill` (first-match-wins pipeline with the
default threshold 85, non-strict) to canonical "JavaScript" with confidence
1.0 and `is_known = true`. -/
theorem c8_javascript_canonicalization :
    resolve_skill 85 false "js"
        = ⟨"js", "JavaScript", EntityType.SKILL, 1, true⟩ ∧
    resolve_skill 85 false "JavaScript"
        = ⟨"JavaScript", "JavaScript", EntityType.SKILL, 1, true⟩ ∧
    resolve_skill 85 false "javascript"
        = ⟨"javascript", "JavaScript", EntityType.SKILL, 1, true⟩ ∧
    resolve_skill 85 false " JS "
        = ⟨"JS", "JavaScript", EntityType.SKILL, 1, true⟩ :=
  ⟨by decide, by decide, by decide, by decide⟩

set_option maxRecDepth 400000 in
/-- C5 counterexample: the input "ZZ" fails the exact-alias and
exact-canonical steps (and the fuzzy step, witnessed by the unknown-entity
outcome); strict-mode resolution flags it `is_known = false` with confidence
0.0, but its canonical name is the title-cased "Zz", not the original casing
"ZZ" — refuting the claim that the original casing is preserved as the
canonical name. -/
theorem c5_strict_mode_counterexample :
    lookupAL skill_variations_l (pyLower (pyStrip "ZZ")) = none ∧
    lookupAL skill_lookup (pyLower (pyStrip "ZZ")) = none ∧
    (resolve_skill 85 true "ZZ").is_known = false ∧
    (resolve_skill 85 true "ZZ").confidence = 0 ∧
    (resolve_skill 85 true "ZZ").original = "ZZ" ∧
    (resolve_skill 85 true "ZZ").canonical = "Zz" ∧
    (resolve_skill 85 true "ZZ").canonical ≠ (resolve_skill 85 true "ZZ").original := by
  have h := resolve_skill_unknown true "ZZ" (by decide) (by decide) fuzz_zz_below_skills
  rw [if_pos rfl] at h
  refine ⟨by decide, by decide, ?_, ?_, ?_, ?_, ?_⟩
  · rw [h]
  · rw [h]
  · rw [h]
    decide
  · rw [h]
    decide
  · rw [h]
    decide

/-- C5 (amended): for every input string that fails the exact-alias,
exact-canonical and fuzzy matching steps, strict-mode `resolve_skill`
returns `is_known = false`, confidence 0.0, and the TITLE-CASED stripped
input (Python `str.title` of the stripped original) as the canonical name. -/
theorem c5_strict_unknown_title_cased (s : String)
    (h1 : lookupAL skill_variations_l (pyLower (pyStrip s)) = none)
    (h2 : lookupAL skill_lookup (pyLower (pyStrip s)) = none)
    (h3 : ∀ k ∈ skill_lookup.map (fun p => p.1),
        fuzzSim (pyLower (pyStrip s)) k < 85) :
    resolve_skill 85 true s =
      ⟨pyStrip s, pyTitle (pyStrip s), EntityType.SKILL, 0, false⟩ := by
  have h := resolve_skill_unknown true s h1 h2 h3
  rwa [if_pos rfl] at h

set_option maxRecDepth 400000 in
/-- Witness for the amended C5 at the concrete input "ZZ". -/
theorem c5_strict_unknown_title_cased_witness :
    resolve_skill 85 true "ZZ" =
      ⟨pyStrip "ZZ", pyTitle (pyStrip "ZZ"), EntityType.SKILL, 0, false⟩ :=
  c5_strict_unknown_title_cased "ZZ" (by decide) (by decide) fuzz_zz_below_skills

/-- C10: with the default fuzzy threshold 85, `resolve_skill` (in either
strict mode) and `resolve_company` always return (totality of the
embedding), with confidence in [0,1]; a known result carries confidence at
least 0.85; an unknown result carries exactly 0.5 in non-strict mode and
exactly 0.0 for strict-mode `resolve_skill`. -/
theorem c10_resolver_confidence_invariants (s : String) (strict : Bool) :
    (0 ≤ (resolve_skill 85 strict s).confidence
        ∧ (resolve_skill 85 strict s).confidence ≤ 1) ∧
    ((resolve_skill 85 strict s).is_known = true →
        85/100 ≤ (resolve_skill 85 strict s).confidence) ∧
    ((resolve_skill 85 strict s).is_known = false →
        (resolve_skill 85 strict s).confidence = if strict then 0 else 1/2) ∧
    (0 ≤ (resolve_company 85 s).confidence
        ∧ (resolve_company 85 s).confidence ≤ 1) ∧
    ((resolve_company 85 s).is_known = true →
        85/100 ≤ (resolve_company 85 s).confidence) ∧
    ((resolve_company 85 s).is_known = false →
        (resolve_company 85 s).confidence = 1/2) := by
  have hs := resolve_skill_conf_cases strict s
  have hc := resolve_company_conf_cases s
  refine ⟨⟨?_, ?_⟩, ?_, ?_, ⟨?_, ?_⟩, ?_, ?_⟩
  · rcases hs with ⟨_, hlb, _⟩ | ⟨_, hconf⟩
    · linarith
    · rw [hconf]; cases strict <;> norm_num
  · rcases hs with ⟨_, _, hub⟩ | ⟨_, hconf⟩
    · exact hub
    · rw [hconf]; cases strict <;> norm_num
  · intro h
    rcases hs with ⟨_, hlb, _⟩ | ⟨hk, _⟩
    · exact hlb
    · rw [hk] at h; exact absurd h (by decide)
  · intro h
    rcases hs with ⟨hk, _, _⟩ | ⟨_, hconf⟩
    · rw [hk] at h; exact absurd h (by decide)
    · exact hconf
  · rcases hc with ⟨_, hclb, _⟩ | ⟨_, hcconf⟩
    · linarith
    · rw [hcconf]; norm_num
  · rcases hc with ⟨_, _, hcub⟩ | ⟨_, hcconf⟩
    · exact hcub
    · rw [hcconf]; norm_num
  · intro h
    rcases hc with ⟨_, hclb, _⟩ | ⟨hck, _⟩
    · exact hclb
    · rw [hck] at h; exact absurd h (by decide)
  · intro h
    rcases hc with ⟨hck, _, _⟩ | ⟨_, hcconf⟩
    · rw [hck] at h; exact absurd h (by decide)
    · exact hcconf

set_option maxRecDepth 400000 in
/-- Witness for C10 at concrete inputs: the known skill "js" and the
unknown company "zz". -/
theorem c10_resolver_confidence_invariants_witness :
    85/100 ≤ (resolve_skill 85 false "js").confidence ∧
    (resolve_company 85 "zz").confidence = 1/2 :=
  ⟨(c10_resolver_confidence_invariants "js" false).2.1 (by decide),
   (c10_resolver_confidence_invariants "zz" false).2.2.2.2.2
     (by rw [resolve_company_unknown "zz" (by decide) (by decide)
       fuzz_zz_below_companies])⟩

/-- C7: for every answer and every context, the grounding validator returns
`valid = false` when the stripped answer ends with a colon, and returns
`valid = false` when the answer contains the AI self-disclosure phrase
"as an ai" case-insensitively, regardless of the rest of the content. -/
theorem c7_grounding_validator_rejections (response context : String) :
    (endsWithStr (pyStrip response) ":" = true →
      (validate_grounded_response response context).valid = false) ∧
    (containsStr (pyLower response) "as an ai" = true →
      (validate_grounded_response response context).valid = false) := by
  constructor
  · intro h
    simp only [validate_grounded_response]
    split
    · rfl
    · split
      · rfl
      · rename_i h2
        exact absurd (by simp [h]) h2
  · intro h
    simp only [validate_grounded_response]
    split
    · rfl
    · split
      · rfl
      · split
        · rfl
        · split
          · rfl
          · rename_i h4
            exact absurd (List.any_eq_true.mpr ⟨"as an ai", by decide, h⟩) h4

set_option maxRecDepth 1000000 in
/-- Witness for C7: a truncated answer ending in a colon and an answer with
an AI self-disclosure, against a fixed resume context. -/
theorem c7_grounding_validator_rejections_witness :
    (validate_grounded_response "Here are the best matching candidates:"
      "Resume: Mark Davis").valid = false ∧
    (validate_grounded_response "As an AI, I cannot rank the candidates here"
      "Resume: Mark Davis").valid = false :=
  ⟨(c7_grounding_validator_rejections "Here are the best matching candidates:"
      "Resume: Mark Davis").1 (by decide),
   (c7_grounding_validator_rejections "As an AI, I cannot rank the candidates here"
      "Resume: Mark Davis").2 (by decide)⟩

/-- C2: for a preferred strategy outside the canonical chain, the fallback
controller attempts strategies in the order `[preferred] ++ FALLBACK_CHAIN`
(the attempt log is a prefix of that list, stopping at the first success)
with no strategy attempted twice; an empty response and a thrown backend
error are treated identically by `query_with_mode`; and when every attempt
fails the result is the fixed apology with `mode_used = "none"`. -/
theorem c2_retrieval_fallback_controller (aquery : String → String → RagOutcome)
    (query preferred : String) (hpref : preferred ∉ FALLBACK_CHAIN) :
    (∃ n, (query_with_fallback aquery query preferred).attempted_modes
        = (preferred :: FALLBACK_CHAIN).take n) ∧
    (query_with_fallback aquery query preferred).attempted_modes.Nodup ∧
    ((∀ m ∈ preferred :: FALLBACK_CHAIN, query_with_mode aquery query m = (none, m)) →
      query_with_fallback aquery query preferred
        = ⟨APOLOGY_RESPONSE, "none", preferred :: FALLBACK_CHAIN, [], true⟩) ∧
    (∀ q m e, aquery q m = RagOutcome.err e → query_with_mode aquery q m = (none, m)) ∧
    (∀ q m, aquery q m = RagOutcome.ok "" → query_with_mode aquery q m = (none, m)) := by
  have hqwf : query_with_fallback aquery query preferred
      = run_chain aquery query preferred (preferred :: FALLBACK_CHAIN) [] := by
    unfold query_with_fallback build_chain
    rw [if_neg hpref]
  refine ⟨?_, ?_, ?_, ?_, ?_⟩
  · obtain ⟨n, hn⟩ :=
      run_chain_attempted aquery query preferred (preferred :: FALLBACK_CHAIN) []
    rw [List.nil_append] at hn
    exact ⟨n, by rw [hqwf]; exact hn⟩
  · obtain ⟨n, hn⟩ :=
      run_chain_attempted aquery query preferred (preferred :: FALLBACK_CHAIN) []
    rw [List.nil_append] at hn
    rw [hqwf, hn]
    have hnodup : (preferred :: FALLBACK_CHAIN).Nodup :=
      List.nodup_cons.mpr ⟨hpref, by decide⟩
    exact List.Nodup.sublist (List.take_sublist n _) hnodup
  · intro hall
    rw [hqwf]
    have h := run_chain_all_fail aquery query preferred
      (preferred :: FALLBACK_CHAIN) [] hall
    rwa [List.nil_append] at h
  · intro q m e he
    unfold query_with_mode
    rw [he]
  · intro q m he
    unfold query_with_mode
    rw [he]
    exact rfl

/-- Witness for C2: a backend that always raises, queried with the unknown
preferred strategy "global". -/
theorem c2_retrieval_fallback_controller_witness :
    query_with_fallback (fun _ _ => RagOutcome.err "backend down") "query" "global"
      = ⟨APOLOGY_RESPONSE, "none", "global" :: FALLBACK_CHAIN, [], true⟩ :=
  (c2_retrieval_fallback_controller (fun _ _ => RagOutcome.err "backend down")
      "query" "global" (by decide)).2.2.1 (fun m _ => rfl)

/-- C6: `BM25Index.search` returns at most `top_k` results, every returned
score is strictly positive, and an unbuilt/empty index or a query that
tokenizes to nothing yields the empty list rather than an error. -/
theorem c6_bm25_search_contract (getScores : List (List String) → List String → List ℚ)
    (st : BM25IndexState) (query : String) (top_k : Nat) :
    (bm25search getScores st query top_k).length ≤ top_k ∧
    (∀ r ∈ bm25search getScores st query top_k, 0 < r.score) ∧
    (st.index = none ∨ st.documents = [] →
      bm25search getScores st query top_k = []) ∧
    (tokenize query = [] → bm25search getScores st query top_k = []) := by
  refine ⟨?_, bm25search_pos getScores st query top_k, ?_, ?_⟩
  · unfold bm25search
    split
    · simp
    · split
      · simp
      · split
        · simp
        · exact List.length_take_le _ _
  · intro h
    unfold bm25search
    rcases h with h | h
    · rw [h]
    · split
      · rfl
      · rw [if_pos (by rw [h]; rfl)]
  · intro h
    unfold bm25search
    split
    · rfl
    · split
      · rfl
      · split
        · rfl
        · rename_i hne
          exact absurd (by rw [h]; rfl) hne

set_option maxRecDepth 400000 in
/-- Witness for C6: a built index with a stop-word-only query, and the
fresh unbuilt index. -/
theorem c6_bm25_search_contract_witness :
    bm25search (fun _ _ => [5]) (build_index ["python developer"]) "the" 7 = [] ∧
    bm25search (fun _ _ => [5]) emptyBM25Index "python" 7 = [] :=
  ⟨(c6_bm25_search_contract (fun _ _ => [5]) (build_index ["python developer"])
      "the" 7).2.2.2 (by decide),
   (c6_bm25_search_contract (fun _ _ => [5]) emptyBM25Index "python" 7).2.2.1
      (Or.inl rfl)⟩

/-- C9: `hybrid_search` is deterministic and independent of the inherited
module-level singleton index state: two calls with identical inputs but
arbitrary (different) prior singleton states produce identical outputs, and
a rerun starting from the state the first call left behind reproduces the
first call's output list. -/
theorem c9_hybrid_search_deterministic
    (getScores : List (List String) → List String → List ℚ)
    (prior1 prior2 : Option BM25IndexState) (query : String)
    (documents : List String) (vector_scores : List ℚ) (top_k : Nat)
    (bm25_weight vector_weight graph_weight : ℚ) (graph_bonus : Option (List ℚ)) :
    hybrid_search getScores prior1 query documents vector_scores top_k
        bm25_weight vector_weight graph_weight graph_bonus
      = hybrid_search getScores prior2 query documents vector_scores top_k
        bm25_weight vector_weight graph_weight graph_bonus ∧
    (hybrid_search getScores
        (some (hybrid_search getScores prior1 query documents vector_scores top_k
          bm25_weight vector_weight graph_weight graph_bonus).2)
        query documents vector_scores top_k
        bm25_weight vector_weight graph_weight graph_bonus).1
      = (hybrid_search getScores prior1 query documents vector_scores top_k
        bm25_weight vector_weight graph_weight graph_bonus).1 :=
  ⟨rfl, rfl⟩

lemma foldl_max_le_bound : ∀ (xs : List ℚ) (a b : ℚ),
    a ≤ b → (∀ x ∈ xs, x ≤ b) → xs.foldl max a ≤ b
  | [], _, _, ha, _ => ha
  | x :: xs, a, b, ha, h =>
      foldl_max_le_bound xs (max a x) b
        (max_le ha (h x (List.mem_cons_self x xs)))
        (fun y hy => h y (List.mem_cons_of_mem x hy))

lemma foldl_min_ge_bound : ∀ (xs : List ℚ) (a b : ℚ),
    b ≤ a → (∀ x ∈ xs, b ≤ x) → b ≤ xs.foldl min a
  | [], _, _, ha, _ => ha
  | x :: xs, a, b, ha, h =>
      foldl_min_ge_bound xs (min a x) b
        (le_min ha (h x (List.mem_cons_self x xs)))
        (fun y hy => h y (List.mem_cons_of_mem x hy))

lemma rangeVector_one_of_const {vs : List ℚ}
    (hall : ∀ a ∈ vs, ∀ b ∈ vs, a = b) : rangeVector vs = 1 := by
  cases vs with
  | nil =>
      unfold rangeVector maxVector minVector maxQ minQ
      norm_num
  | cons v vs =>
      have hvv : ∀ x ∈ v :: vs, x = v :=
        fun x hx => hall x hx v (List.mem_cons_self v vs)
      have hmax : maxVector (v :: vs) = v := by
        unfold maxVector maxQ
        exact le_antisymm
          (foldl_max_le_bound vs v v (le_refl v)
            (fun x hx => le_of_eq (hvv x (List.mem_cons_of_mem v hx))))
          (foldl_max_le_init vs v)
      have hmin : minVector (v :: vs) = v := by
        unfold minVector minQ
        exact le_antisymm (foldl_min_le_init vs v)
          (foldl_min_ge_bound vs v v (le_refl v)
            (fun x hx => ge_of_eq (hvv x (List.mem_cons_of_mem v hx))))
      unfold rangeVector
      rw [hmax, hmin, if_neg (fun hc => hc rfl)]

/-- C3: with an equal-length vector-score list, graph bonuses in [0,1] and a
non-negative weight triple summing to 1, every fused score produced by
`hybrid_search` equals the weighted sum of the normalized per-document
lexical, vector and graph components and lies within [0,1]; and when all
vector scores are equal the min-max normalization range is taken to be 1,
so the normalization never divides by zero. -/
theorem c3_score_fusion_formula_and_bounds
    (getScores : List (List String) → List String → List ℚ)
    (priorIndex : Option BM25IndexState) (query : String)
    (documents : List String) (vector_scores : List ℚ) (top_k : Nat)
    (wb wv wg : ℚ) (gbl : List ℚ)
    (_hlen : vector_scores.length = documents.length)
    (hgb : ∀ g ∈ gbl, 0 ≤ g ∧ g ≤ 1)
    (hwb : 0 ≤ wb) (hwv : 0 ≤ wv) (hwg : 0 ≤ wg) (hsum : wb + wv + wg = 1) :
    (∀ r ∈ (hybrid_search getScores priorIndex query documents vector_scores
        top_k wb wv wg (some gbl)).1,
      r.score = wb * lookupScore (bm25NormOf getScores documents query) r.index
          + wv * vecNormAt vector_scores r.index
          + wg * graphAt (some gbl) documents.length r.index
        ∧ 0 ≤ r.score ∧ r.score ≤ 1) ∧
    ((∀ a ∈ vector_scores, ∀ b ∈ vector_scores, a = b) →
      rangeVector vector_scores = 1) := by
  refine ⟨?_, fun hall => rangeVector_one_of_const hall⟩
  intro r hr
  obtain ⟨i, doc, hmem, rfl⟩ := hybrid_mem_row hr
  have hbm := bm25NormOf_bounds getScores documents query i
  have hv := vecNormAt_bounds vector_scores i
  have hg := graphAt_bounds (some gbl) documents.length i
    (fun l hl => (Option.some.inj hl) ▸ hgb)
  refine ⟨rfl, ?_, ?_⟩
  · exact add_nonneg (add_nonneg (mul_nonneg hwb hbm.1) (mul_nonneg hwv hv.1))
      (mul_nonneg hwg hg.1)
  · have h1 : wb * lookupScore (bm25NormOf getScores documents query) i ≤ wb :=
      mul_le_of_le_one_right hwb hbm.2
    have h2 : wv * vecNormAt vector_scores i ≤ wv :=
      mul_le_of_le_one_right hwv hv.2
    have h3 : wg * graphAt (some gbl) documents.length i ≤ wg :=
      mul_le_of_le_one_right hwg hg.2
    show wb * lookupScore (bm25NormOf getScores documents query) i
        + wv * vecNormAt vector_scores i
        + wg * graphAt (some gbl) documents.length i ≤ 1
    linarith

/-- Witness for C3 at a concrete one-document call. -/
theorem c3_score_fusion_formula_and_bounds_witness :
    (∀ r ∈ (hybrid_search (fun _ _ => []) none "q" ["d"] [1/2] 5
        (2/5) (3/10) (3/10) (some [1])).1,
      r.score = 2/5 * lookupScore (bm25NormOf (fun _ _ => []) ["d"] "q") r.index
          + 3/10 * vecNormAt [1/2] r.index
          + 3/10 * graphAt (some [1]) (List.length ["d"]) r.index
        ∧ 0 ≤ r.score ∧ r.score ≤ 1) ∧
    ((∀ a ∈ ([1/2] : List ℚ), ∀ b ∈ ([1/2] : List ℚ), a = b) →
      rangeVector [1/2] = 1) :=
  c3_score_fusion_formula_and_bounds (fun _ _ => []) none "q" ["d"] [1/2] 5
    (2/5) (3/10) (3/10) [1] (by decide)
    (by intro g hg; rw [List.mem_singleton] at hg; subst hg; norm_num)
    (by norm_num) (by norm_num) (by norm_num) (by norm_num)

/-- C4 counterexample: called with two documents but a single vector score,
`hybrid_search` does not fail: it returns a normal two-row result, with the
out-of-range document's vector component silently defaulted to 0 — refuting
the claim that mismatched lengths surface as a hard error. -/
theorem c4_mismatched_lengths_counterexample :
    (hybrid_search (fun _ _ => []) none "python"
        ["python developer", "java engineer"] [7/10] 20
        (2/5) (3/10) (3/10) none).1.length = 2 ∧
    vecNormAt [7/10] 1 = 0 := by
  constructor
  · unfold hybrid_search sortHybridDesc
    rw [List.length_take, stableSortDesc_length, List.length_map, List.enum_length]
    rfl
  · exact vecNormAt_default (by decide)

/-- C4 (amended): mismatched lengths between `documents` and
`vector_scores` do not raise: every document still receives a fused row
(the result has `min top_k (length documents)` rows), each row's score is
the weighted component sum, and any document index at or beyond the vector
list length gets vector component 0.0. -/
theorem c4_mismatched_lengths_zero_default
    (getScores : List (List String) → List String → List ℚ)
    (priorIndex : Option BM25IndexState) (query : String)
    (documents : List String) (vector_scores : List ℚ) (top_k : Nat)
    (wb wv wg : ℚ) (gb : Option (List ℚ)) :
    ((hybrid_search getScores priorIndex query documents vector_scores top_k
        wb wv wg gb).1.length = min top_k documents.length) ∧
    (∀ r ∈ (hybrid_search getScores priorIndex query documents vector_scores top_k
        wb wv wg gb).1,
      r.score = wb * lookupScore (bm25NormOf getScores documents query) r.index
          + wv * vecNormAt vector_scores r.index
          + wg * graphAt gb documents.length r.index) ∧
    (∀ i, vector_scores.length ≤ i → vecNormAt vector_scores i = 0) := by
  refine ⟨?_, ?_, fun i h => vecNormAt_default h⟩
  · unfold hybrid_search sortHybridDesc
    rw [List.length_take, stableSortDesc_length, List.length_map, List.enum_length]
  · intro r hr
    obtain ⟨i, doc, hmem, rfl⟩ := hybrid_mem_row hr
    rfl

/-- Witness for C4 (amended) at the concrete mismatched call. -/
theorem c4_mismatched_lengths_zero_default_witness :
    vecNormAt [7/10] 1 = 0 ∧
    (hybrid_search (fun _ _ => []) none "python"
        ["python developer", "java engineer"] [7/10] 20
        (2/5) (3/10) (3/10) none).1.length = min 20 2 :=
  ⟨(c4_mismatched_lengths_zero_default (fun _ _ => []) none "python"
      ["python developer", "java engineer"] [7/10] 20
      (2/5) (3/10) (3/10) none).2.2 1 (by decide),
   (c4_mismatched_lengths_zero_default (fun _ _ => []) none "python"
      ["python developer", "java engineer"] [7/10] 20
      (2/5) (3/10) (3/10) none).1⟩

/-- C1: over any reranked list, assuming the job query yields a non-empty
required-skill set: every candidate the Evidence Filter outputs comes from
an item at or above the minimum-confidence threshold that has either at
least one matched skill or a score at or above the high-confidence waiver
threshold (so a 0.25-score item is rejected regardless of its skills, and a
0.40-score item with no matched skills is rejected); and on a singleton
list, a 0.65-score item is accepted even with no matched skills, a
0.40-score item with at least one matched skill is accepted, a 0.25-score
item is rejected, and a 0.40-score item with no matched skills is
rejected. -/
theorem c1_evidence_filter_thresholds (H : TextHelpers) (job_query : String)
    (top_k : Nat) (item : RerankItem)
    (_hjob : extract_skills_from_text (pyLower job_query) ≠ []) (htop : 0 < top_k) :
    (∀ (reranked : List RerankItem) (c : CandidatePreview),
        c ∈ parse_reranked_to_candidates H reranked top_k job_query →
        ∃ it ∈ reranked,
          MIN_CONFIDENCE ≤ itemNormScore it ∧
          (MIN_SKILLS_FOR_EVIDENCE
              ≤ (itemMatchedSkills (extract_skills_from_text (pyLower job_query)) it).length
            ∨ HIGH_SCORE_THRESHOLD ≤ itemNormScore it) ∧
          c = mkCandidate H (extract_skills_from_text (pyLower job_query)) it) ∧
    (itemNormScore item = 1/4 →
        parse_reranked_to_candidates H [item] top_k job_query = []) ∧
    (itemNormScore item = 13/20 →
        parse_reranked_to_candidates H [item] top_k job_query
          = [mkCandidate H (extract_skills_from_text (pyLower job_query)) item]) ∧
    (itemNormScore item = 2/5 →
        itemMatchedSkills (extract_skills_from_text (pyLower job_query)) item ≠ [] →
        parse_reranked_to_candidates H [item] top_k job_query
          = [mkCandidate H (extract_skills_from_text (pyLower job_query)) item]) ∧
    (itemNormScore item = 2/5 →
        itemMatchedSkills (extract_skills_from_text (pyLower job_query)) item = [] →
        parse_reranked_to_candidates H [item] top_k job_query = []) := by
  refine ⟨?_, ?_, ?_, ?_, ?_⟩
  · intro reranked c hc
    unfold parse_reranked_to_candidates at hc
    rcases parseLoop_mem_sound H top_k _ reranked [] [] c hc with h | h
    · cases h
    · exact h
  · intro hns
    unfold parse_reranked_to_candidates parseLoop
    rw [if_neg (by simp; omega), if_neg (by simp),
      if_pos (by rw [hns]; norm_num [MIN_CONFIDENCE])]
    rfl
  · intro hns
    unfold parse_reranked_to_candidates parseLoop
    rw [if_neg (by simp; omega), if_neg (by simp),
      if_neg (by rw [hns]; norm_num [MIN_CONFIDENCE]),
      if_neg (fun hcon => absurd hcon.2 (by rw [hns]; norm_num [HIGH_SCORE_THRESHOLD]))]
    rfl
  · intro hns hmatched
    unfold parse_reranked_to_candidates parseLoop
    rw [if_neg (by simp; omega), if_neg (by simp),
      if_neg (by rw [hns]; norm_num [MIN_CONFIDENCE]),
      if_neg (fun hcon => absurd hcon.1
        (by have := List.length_pos.mpr hmatched
            unfold MIN_SKILLS_FOR_EVIDENCE
            omega))]
    rfl
  · intro hns hmatched
    unfold parse_reranked_to_candidates parseLoop
    rw [if_neg (by simp; omega), if_neg (by simp),
      if_neg (by rw [hns]; norm_num [MIN_CONFIDENCE]),
      if_pos ⟨by rw [hmatched]; norm_num [MIN_SKILLS_FOR_EVIDENCE],
        by rw [hns]; norm_num [HIGH_SCORE_THRESHOLD]⟩]
    rfl

/-- Witness for C1: constant presentation helpers, the job query "python
developer" (which yields the skill Python), and a reranked item with raw
score -5 (normalized 0.25), which is rejected. -/
theorem c1_evidence_filter_thresholds_witness :
    parse_reranked_to_candidates
        ⟨fun _ => "Unknown Candidate", fun _ => "", fun _ => ""⟩
        [⟨some "resume text", some (-5)⟩] 5 "python developer" = [] :=
  (c1_evidence_filter_thresholds
      ⟨fun _ => "Unknown Candidate", fun _ => "", fun _ => ""⟩
      "python developer" 5 ⟨some "resume text", some (-5)⟩
      (by decide) (by omega)).2.1
    (by simp only [itemNormScore, normalizeRerankScore, Option.getD_some]
        norm_num)
